import Mathlib

/-!
Pseudo-inverse calculation of the package cob_twist_controller: a shallow embedding of
`cob_twist_controller/src/inverse_jacobian_calculations/inverse_jacobian_calculation.cpp`
(classes `PInvBySVD` and `PInvDirect`) and of the constructor of
`KinematicExtensionBaseActive` in
`cob_twist_controller/include/cob_twist_controller/kinematic_extensions/kinematic_extension_dof.h`.

Conventions of the embedding.

* `double` is an arbitrary linearly ordered field `K` (exact arithmetic); every
  definition is computable and can be run at `K = ℚ`. Where the rounding and the
  underflow of `double` decide a property, the expressions of source lines 80 and 83
  are also given over `Double`, a model of IEEE 754 binary64 with round to nearest,
  ties to even.
* An `Eigen::MatrixXd` with `r` rows and `c` columns is a `Matrix (Fin r) (Fin c) K`,
  an `Eigen::VectorXd` of size `n` is a function `Fin n → K`.
* Coefficient access `v(i)` with a run-time index is checked, as by Eigen's assertion
  `index >= 0 && index < size()`; a failed check is the result
  `Except.error EigenError.indexOutOfRange`.
* `Eigen::JacobiSVD` and `MatrixBase::inverse()` are library routines that are not
  part of the program: the decomposition and the inversion routine are arguments of
  the embedded functions, and their contracts are hypotheses of the theorems that
  need them.
* The loop counter `uint32_t i` and the dimensions `uint32_t jac_rows`, `jac_cols` are
  `Nat` (the dimensions of a Jacobian are far below `2^32`, so nothing wraps);
  `singularValues.rows()` is a signed 64-bit `Eigen::Index`, so the loop conditions
  compare in `Int`, and `singularValues.rows()-1` is `-1` for an empty vector.
* `ROS_ERROR` appends a message to a log that is returned with the result.
* A C++ object is the record of its data members; a member function whose body is not
  part of the sources (`initExtension()`) is an argument that maps the members to a
  return value and new members.
-/

namespace CobTwistController

open Matrix

/-! ## Eigen run-time model -/

/-- Failure of a checked Eigen operation. -/
inductive EigenError where
  | indexOutOfRange
  deriving DecidableEq, Repr

/-- Read access `v(i)` on a dynamic vector of size `n`. -/
def coeff {K : Type} {n : Nat} (v : Fin n → K) (i : Nat) : Except EigenError K :=
  if h : i < n then Except.ok (v ⟨i, h⟩) else Except.error EigenError.indexOutOfRange

/-- Write access `v(i) = x` on a dynamic vector of size `n`. -/
def setCoeff {K : Type} {n : Nat} (v : Fin n → K) (i : Nat) (x : K) :
    Except EigenError (Fin n → K) :=
  if h : i < n then Except.ok (Function.update v ⟨i, h⟩ x)
  else Except.error EigenError.indexOutOfRange

/-- The loop `for (; i < bound; ++i) body`, started at counter `i` in state `s`.
It returns the final counter together with the final state. -/
def forLoop {σ : Type} (bound : Int) (body : Nat → σ → Except EigenError σ)
    (i : Nat) (s : σ) : Except EigenError (Nat × σ) :=
  if _h : (i : Int) < bound then
    match body i s with
    | Except.ok s' => forLoop bound body (i + 1) s'
    | Except.error e => Except.error e
  else Except.ok (i, s)
termination_by (bound - (i : Int)).toNat
decreasing_by omega

/-- The result of `Eigen::JacobiSVD<MatrixXd> svd(jacobian, ComputeThinU | ComputeThinV)`
for a Jacobian with `r` rows and `c` columns: `k` singular values, a thin `U` with `k`
columns and a thin `V` with `k` columns. -/
structure JacobiSVD (K : Type) (r c k : Nat) where
  matrixU : Matrix (Fin r) (Fin k) K
  singularValues : Fin k → K
  matrixV : Matrix (Fin c) (Fin k) K

/-- Contract of the thin singular value decomposition: there are `min r c` singular
values, the factors reconstruct the Jacobian and `U`, `V` have orthonormal columns. -/
def JacobiSVD.IsThinSVD {K : Type} [Field K] {r c k : Nat} (svd : JacobiSVD K r c k)
    (jacobian : Matrix (Fin r) (Fin c) K) : Prop :=
  k = min r c ∧
  jacobian = svd.matrixU * Matrix.diagonal svd.singularValues * svd.matrixVᵀ ∧
  svd.matrixUᵀ * svd.matrixU = 1 ∧
  svd.matrixVᵀ * svd.matrixV = 1

/-- Interface `DampingBase::getDampingFactor(singularValues, jacobian)`: the vector of
singular values may have any size. -/
abbrev DampingBase (K : Type) (r c : Nat) :=
  (n : Nat) → (Fin n → K) → Matrix (Fin r) (Fin c) K → K

/-- Modelled from the spec: the enumeration `DampingMethodTypes` is declared in a header
that is not part of the sources; the code names only `LEAST_SINGULAR_VALUE`. -/
inductive DampingMethodTypes where
  | NO_DAMPING
  | CONSTANT
  | MANIPULABILITY
  | LEAST_SINGULAR_VALUE
  deriving DecidableEq, Repr

/-- The fields of `TwistControllerParams` read by the pseudo-inverse calculation. -/
structure TwistControllerParams (K : Type) where
  damping_method : DampingMethodTypes
  numerical_filtering : Bool
  eps_truncation : K
  beta : K

/-! ## PInvBySVD -/

namespace PInvBySVD

variable {K : Type} [LinearOrderedField K]

/-- Body of the loop of the undamped `calculate` (source lines 48-50). -/
def undampedBody {n : Nat} (eps_truncation : K) (singularValues : Fin n → K)
    (i : Nat) (singularValuesInv : Fin n → K) : Except EigenError (Fin n → K) := do
  let s ← coeff singularValues i
  let denominator := s * s
  setCoeff singularValuesInv i (if s < eps_truncation then 0 else s / denominator)

/-- The vector `singularValuesInv` of the undamped `calculate` after its loop
(source lines 41-51). -/
def singularValuesInv {n : Nat} (DIV0_SAFE : K) (singularValues : Fin n → K) :
    Except EigenError (Fin n → K) := do
  let eps_truncation := DIV0_SAFE
  let r ← forLoop (n : Int) (undampedBody eps_truncation singularValues) 0 (fun _ => 0)
  pure r.2

/-- `PInvBySVD::calculate(jacobian)` (source lines 38-56). `DIV0_SAFE` is a macro of a
header that is not part of the sources and is an argument here. -/
def calculate {r c k : Nat} (DIV0_SAFE : K) (_jacobian : Matrix (Fin r) (Fin c) K)
    (svd : JacobiSVD K r c k) : Except EigenError (Matrix (Fin c) (Fin r) K) := do
  let inv ← singularValuesInv DIV0_SAFE svd.singularValues
  pure (svd.matrixV * Matrix.diagonal inv * svd.matrixUᵀ)

/-- Body of the first loop of the numerical-filtering branch (source line 80). -/
def filteringBody {n : Nat} (beta : K) (singularValues : Fin n → K)
    (i : Nat) (singularValuesInv : Fin n → K) : Except EigenError (Fin n → K) := do
  let s ← coeff singularValues i
  setCoeff singularValuesInv i (s / (s ^ 2 + beta ^ 2))

/-- Body of the loop of the quadratic-damping branch (source lines 90-92). -/
def quadraticBody {n : Nat} (eps_truncation lambda : K) (singularValues : Fin n → K)
    (i : Nat) (singularValuesInv : Fin n → K) : Except EigenError (Fin n → K) := do
  let s ← coeff singularValues i
  let denominator := s * s + lambda ^ 2
  setCoeff singularValuesInv i (if s < eps_truncation then 0 else s / denominator)

/-- The vector `singularValuesInv` of the damped `calculate` after the branch on
`params.numerical_filtering` (source lines 67-101), for the damping factor `lambda`. -/
def singularValuesInvDamped {n : Nat} (params : TwistControllerParams K) (lambda : K)
    (singularValues : Fin n → K) : Except EigenError (Fin n → K) :=
  let eps_truncation := params.eps_truncation
  if params.numerical_filtering then do
    let r ← forLoop ((n : Int) - 1) (filteringBody params.beta singularValues) 0 (fun _ => 0)
    let i := r.1
    let s ← coeff singularValues i
    setCoeff r.2 i (s / (s ^ 2 + params.beta ^ 2 + lambda ^ 2))
  else do
    let r ← forLoop (n : Int) (quadraticBody eps_truncation lambda singularValues) 0
      (fun _ => 0)
    pure r.2

/-- `PInvBySVD::calculate(params, db, jacobian)` (source lines 62-106). -/
def calculate_damped {r c k : Nat} (params : TwistControllerParams K)
    (db : DampingBase K r c) (jacobian : Matrix (Fin r) (Fin c) K) (svd : JacobiSVD K r c k) :
    Except EigenError (Matrix (Fin c) (Fin r) K) := do
  let lambda := db k svd.singularValues jacobian
  let inv ← singularValuesInvDamped params lambda svd.singularValues
  pure (svd.matrixV * Matrix.diagonal inv * svd.matrixUᵀ)

end PInvBySVD

/-! ## PInvDirect -/

/-- The library routine `MatrixBase::inverse()` on square matrices of any size. -/
abbrev EigenInverse (K : Type) :=
  (n : Nat) → Matrix (Fin n) (Fin n) K → Matrix (Fin n) (Fin n) K

/-- Contract of `MatrixBase::inverse()`: on an invertible matrix it returns an inverse.
Nothing is said about its result on a singular matrix. -/
def EigenInverse.IsInverse {K : Type} [Field K] (inverse : EigenInverse K) : Prop :=
  ∀ (n : Nat) (A : Matrix (Fin n) (Fin n) K), A.det ≠ 0 → A * inverse n A = 1

/-- An executable inversion routine: the adjugate divided by the determinant. -/
def adjugateInverse {K : Type} [Field K] : EigenInverse K :=
  fun _ A => (A.det)⁻¹ • A.adjugate

/-- The value of a call together with the messages it wrote through `ROS_ERROR`. -/
structure Logged (α : Type) where
  rosErrors : List String
  result : α

namespace PInvDirect

variable {K : Type} [LinearOrderedField K]

/-- `PInvDirect::calculate(jacobian)` (source lines 111-128). -/
def calculate {r c : Nat} (inverse : EigenInverse K) (jacobian : Matrix (Fin r) (Fin c) K) :
    Except EigenError (Matrix (Fin c) (Fin r) K) :=
  let j_t := jacobianᵀ
  let jac_rows := r
  let jac_cols := c
  if jac_cols ≥ jac_rows then
    pure (j_t * inverse r (jacobian * j_t))
  else
    pure (inverse c (j_t * jacobian) * j_t)

/-- The text of the `ROS_ERROR` of source line 143. -/
def unsupportedMessage : String :=
  "PInvDirect does not support SVD. Use PInvBySVD class instead!"

/-- `PInvDirect::calculate(params, db, jacobian)` (source lines 133-161). -/
def calculate_damped {r c : Nat} (inverse : EigenInverse K) (params : TwistControllerParams K)
    (db : DampingBase K r c) (jacobian : Matrix (Fin r) (Fin c) K) :
    Logged (Except EigenError (Matrix (Fin c) (Fin r) K)) :=
  let j_t := jacobianᵀ
  let jac_rows := r
  let jac_cols := c
  let rosErrors : List String :=
    if params.damping_method = DampingMethodTypes.LEAST_SINGULAR_VALUE then
      [unsupportedMessage]
    else []
  let lambda := db 1 (fun _ => 0) jacobian
  if jac_cols ≥ jac_rows then
    let ident : Matrix (Fin r) (Fin r) K := 1
    let toBeInv := jacobian * j_t + (lambda * lambda) • ident
    ⟨rosErrors, pure (j_t * inverse r toBeInv)⟩
  else
    let ident : Matrix (Fin c) (Fin c) K := 1
    let toBeInv := j_t * jacobian + (lambda * lambda) • ident
    ⟨rosErrors, pure (inverse c toBeInv * j_t)⟩

end PInvDirect

/-! ## KinematicExtensionBaseActive -/

/-- The data members of a `KinematicExtensionBaseActive` object: the protected state of
`KinematicExtensionDOF` (header lines 63-69) and the private members of the class
(header lines 105-110). The type `JointStates` is declared in a header that is not part
of the sources and is a parameter. The publisher is the advertised topic with its queue
size, if any. -/
structure KinematicExtensionBaseActive (K : Type) (JointStates : Type) where
  ext_dof_ : Nat
  joint_names_ : List String
  joint_states_ : JointStates
  limits_max_ : List K
  limits_min_ : List K
  limits_vel_ : List K
  limits_acc_ : List K
  base_vel_pub_ : Option (String × Nat)
  min_vel_lin_base_ : K
  min_vel_rot_base_ : K
  max_vel_lin_base_ : K
  max_vel_rot_base_ : K

/-- The member function `initExtension()`, declared at header line 96 and defined in a
source file that is not part of the sources: it acts on the members and returns whether
the initialisation succeeded. -/
abbrev InitExtension (K : Type) (JointStates : Type) :=
  KinematicExtensionBaseActive K JointStates → Bool × KinematicExtensionBaseActive K JointStates

/-- Modelled from the spec: the body of `initExtension()` is not part of the sources. The
spec counts the velocity thresholds among the configuration that is set once at
initialisation and is read-only thereafter, so `initExtension()` leaves the four
threshold members as it finds them. -/
def InitExtension.KeepsThresholds {K : Type} {JointStates : Type}
    (initExtension : InitExtension K JointStates) : Prop :=
  ∀ s : KinematicExtensionBaseActive K JointStates,
    (initExtension s).2.min_vel_lin_base_ = s.min_vel_lin_base_ ∧
    (initExtension s).2.min_vel_rot_base_ = s.min_vel_rot_base_ ∧
    (initExtension s).2.max_vel_lin_base_ = s.max_vel_lin_base_ ∧
    (initExtension s).2.max_vel_rot_base_ = s.max_vel_rot_base_

/-- The assignments of the constructor body before the call of `initExtension()`
(header lines 81-86); `0.005` is `5 / 1000` and `0.5` is `1 / 2`. -/
def KinematicExtensionBaseActive.assignMembers {K : Type} [Field K] {JointStates : Type}
    (this : KinematicExtensionBaseActive K JointStates) :
    KinematicExtensionBaseActive K JointStates :=
  { this with
    base_vel_pub_ := some ("base/command", 1)
    min_vel_lin_base_ := 5 / 1000
    min_vel_rot_base_ := 5 / 1000
    max_vel_lin_base_ := 1 / 2
    max_vel_rot_base_ := 1 / 2 }

/-- The text of the `ROS_ERROR` of header line 90. -/
def KinematicExtensionBaseActive.initFailedMessage : String :=
  "Initialization failed"

/-- The constructor `KinematicExtensionBaseActive(params)` (header lines 78-92). The
argument `uninit` holds the members as the base-class constructors, which receive
`params`, leave them. The result is the constructed object with the messages written
through `ROS_ERROR`. -/
def KinematicExtensionBaseActive.KinematicExtensionBaseActive {K : Type} [Field K]
    {JointStates : Type} (initExtension : InitExtension K JointStates)
    (_params : TwistControllerParams K)
    (uninit : KinematicExtensionBaseActive K JointStates) :
    Logged (KinematicExtensionBaseActive K JointStates) :=
  let r := initExtension uninit.assignMembers
  if !r.1 then
    ⟨[KinematicExtensionBaseActive.initFailedMessage], r.2⟩
  else
    ⟨[], r.2⟩

namespace Double

end Double

namespace Example

/-- A Jacobian with two rows and three columns. -/
def jacobian23 : Matrix (Fin 2) (Fin 3) ℚ := !![3, 0, 0; 0, 2, 0]

/-- A thin singular value decomposition of `jacobian23`. -/
def svd23 : JacobiSVD ℚ 2 3 2 where
  matrixU := !![1, 0; 0, 1]
  singularValues := ![3, 2]
  matrixV := !![1, 0; 0, 1; 0, 0]

/-- A rank-deficient Jacobian with two rows and three columns and a decomposition
with a singular value `0`. -/
def jacobianSingular : Matrix (Fin 2) (Fin 3) ℚ := !![3, 0, 0; 0, 0, 0]

/-- A thin singular value decomposition of `jacobianSingular`. -/
def svdSingular : JacobiSVD ℚ 2 3 2 where
  matrixU := !![1, 0; 0, 1]
  singularValues := ![3, 0]
  matrixV := !![1, 0; 0, 1; 0, 0]

/-- The truncation constant `1.0e-6`. -/
def div0Safe : ℚ := 1 / 1000000

/-- The Jacobian of a chain without joints: six rows, no column. -/
def jacobianEmpty : Matrix (Fin 6) (Fin 0) ℚ := fun _ j => j.elim0

/-- The decomposition of `jacobianEmpty`: no singular value. -/
def svdEmpty : JacobiSVD ℚ 6 0 0 where
  matrixU := fun _ j => j.elim0
  singularValues := fun j => j.elim0
  matrixV := fun i _ => i.elim0

/-- Parameters with numerical filtering enabled. -/
def paramsFiltering : TwistControllerParams ℚ where
  damping_method := DampingMethodTypes.CONSTANT
  numerical_filtering := true
  eps_truncation := 1 / 1000000
  beta := 1 / 10

/-- Parameters with numerical filtering disabled (quadratic damping). -/
def paramsQuadratic : TwistControllerParams ℚ where
  damping_method := DampingMethodTypes.CONSTANT
  numerical_filtering := false
  eps_truncation := 1 / 1000000
  beta := 1 / 10

/-- Parameters that select the damping method `LEAST_SINGULAR_VALUE`. -/
def paramsLeastSingular : TwistControllerParams ℚ where
  damping_method := DampingMethodTypes.LEAST_SINGULAR_VALUE
  numerical_filtering := false
  eps_truncation := 1 / 1000000
  beta := 1 / 10

/-- A Jacobian with three rows and two columns. -/
def jacobian32 : Matrix (Fin 3) (Fin 2) ℚ := !![3, 0; 0, 2; 0, 0]

/-- An invertible square Jacobian with three rows. -/
def jacobian33 : Matrix (Fin 3) (Fin 3) ℚ := !![1, 2, 0; 0, 1, 0; 0, 0, 2]

/-- A damping strategy that returns the constant `d`. -/
def constantDamping (d : ℚ) (r c : Nat) : DampingBase ℚ r c := fun _ _ _ => d

/-- A damping strategy that depends on the singular values it is given: `1/2` plus
their sum. -/
def sumDamping (r c : Nat) : DampingBase ℚ r c := fun _ v _ => 1 / 2 + ∑ i, v i

/-- Members as left by the base-class constructors: empty vectors, no publisher and
arbitrary numbers in the scalar members. -/
def uninitBase : KinematicExtensionBaseActive ℚ (List ℚ × List ℚ) where
  ext_dof_ := 7
  joint_names_ := []
  joint_states_ := ([], [])
  limits_max_ := []
  limits_min_ := []
  limits_vel_ := []
  limits_acc_ := []
  base_vel_pub_ := none
  min_vel_lin_base_ := 42
  min_vel_rot_base_ := -1
  max_vel_lin_base_ := 0
  max_vel_rot_base_ := 1000

/-- The set-up of the three degrees of freedom of a planar base shared by the two
initialisations below. -/
def setUpBase (s : KinematicExtensionBaseActive ℚ (List ℚ × List ℚ)) :
    KinematicExtensionBaseActive ℚ (List ℚ × List ℚ) :=
  { s with
    ext_dof_ := 3
    joint_names_ := ["base_x", "base_y", "base_rot_z"]
    joint_states_ := ([0, 0, 0], [0, 0, 0])
    limits_vel_ := [1, 1, 1]
    limits_acc_ := [1, 1, 1] }

/-- An initialisation that sets up the base and reports a failure. -/
def initFails : InitExtension ℚ (List ℚ × List ℚ) := fun s => (false, setUpBase s)

end Example

/-! ## Loop lemmas -/

section LoopLemmas

variable {K : Type}

/-- A loop whose body writes `g j` at position `j` fills the positions from the start
counter up to the bound, leaves the others as they were, and never fails as long as
the bound does not exceed the size of the vector. -/
theorem forLoop_fill {n : Nat} (g : Fin n → K)
    (body : Nat → (Fin n → K) → Except EigenError (Fin n → K))
    (hbody : ∀ (i : Nat) (h : i < n) (v : Fin n → K),
      body i v = Except.ok (Function.update v ⟨i, h⟩ (g ⟨i, h⟩)))
    (bound : Int) (hb : bound ≤ (n : Int)) :
    ∀ (m i : Nat) (v : Fin n → K), (bound - (i : Int)).toNat = m →
      forLoop bound body i v =
        Except.ok (max i bound.toNat,
          fun j => if i ≤ j.val ∧ (j.val : Int) < bound then g j else v j) := by
  intro m
  induction m with
  | zero =>
    intro i v hm
    have hi : ¬ ((i : Int) < bound) := by omega
    rw [forLoop, dif_neg hi]
    congr 1
    refine Prod.ext ?_ ?_
    · simp only
      omega
    · funext j
      dsimp only
      have : ¬ (i ≤ j.val ∧ (j.val : Int) < bound) := by omega
      simp only [if_neg this]
  | succ m ih =>
    intro i v hm
    have hi : (i : Int) < bound := by omega
    have hin : i < n := by omega
    rw [forLoop, dif_pos hi, hbody i hin v]
    simp only
    rw [ih (i + 1) _ (by omega)]
    congr 1
    refine Prod.ext ?_ ?_
    · simp only
      omega
    · funext j
      dsimp only
      by_cases hj : j = ⟨i, hin⟩
      · subst hj
        have h1 : ¬ (i + 1 ≤ i ∧ ((i : Nat) : Int) < bound) := by omega
        have h2 : (i ≤ i ∧ ((i : Nat) : Int) < bound) := ⟨le_refl _, hi⟩
        simp only [if_neg h1, if_pos h2, Function.update_same]
      · have hne : j.val ≠ i := fun h => hj (Fin.ext h)
        rw [Function.update_noteq hj]
        by_cases hc : i ≤ j.val ∧ (j.val : Int) < bound
        · have hc' : i + 1 ≤ j.val ∧ (j.val : Int) < bound := by omega
          simp only [if_pos hc, if_pos hc']
        · have hc' : ¬ (i + 1 ≤ j.val ∧ (j.val : Int) < bound) := by omega
          simp only [if_neg hc, if_neg hc']

/-- A complete loop from counter `0` to the size of the vector computes `g`. -/
theorem forLoop_full {n : Nat} (g : Fin n → K)
    (body : Nat → (Fin n → K) → Except EigenError (Fin n → K))
    (hbody : ∀ (i : Nat) (h : i < n) (v : Fin n → K),
      body i v = Except.ok (Function.update v ⟨i, h⟩ (g ⟨i, h⟩)))
    (v : Fin n → K) :
    forLoop (n : Int) body 0 v = Except.ok (n, g) := by
  rw [forLoop_fill g body hbody (n : Int) (le_refl _) _ 0 v rfl]
  congr 1
  refine Prod.ext ?_ ?_
  · simp
  · funext j
    dsimp only
    have : (0 ≤ j.val ∧ (j.val : Int) < (n : Int)) := ⟨Nat.zero_le _, by exact_mod_cast j.isLt⟩
    simp only [if_pos this]

end LoopLemmas

/-! ## PInvBySVD: the inverted singular values -/

namespace PInvBySVD

variable {K : Type} [LinearOrderedField K]

theorem undampedBody_eq {n : Nat} (eps : K) (sv : Fin n → K) (i : Nat) (h : i < n)
    (v : Fin n → K) :
    undampedBody eps sv i v = Except.ok (Function.update v ⟨i, h⟩
      (if sv ⟨i, h⟩ < eps then 0 else sv ⟨i, h⟩ / (sv ⟨i, h⟩ * sv ⟨i, h⟩))) := by
  simp [undampedBody, coeff, setCoeff, h, bind, Except.bind]

theorem quadraticBody_eq {n : Nat} (eps lambda : K) (sv : Fin n → K) (i : Nat) (h : i < n)
    (v : Fin n → K) :
    quadraticBody eps lambda sv i v = Except.ok (Function.update v ⟨i, h⟩
      (if sv ⟨i, h⟩ < eps then 0
        else sv ⟨i, h⟩ / (sv ⟨i, h⟩ * sv ⟨i, h⟩ + lambda ^ 2))) := by
  simp [quadraticBody, coeff, setCoeff, h, bind, Except.bind]

theorem filteringBody_eq {n : Nat} (beta : K) (sv : Fin n → K) (i : Nat) (h : i < n)
    (v : Fin n → K) :
    filteringBody beta sv i v = Except.ok (Function.update v ⟨i, h⟩
      (sv ⟨i, h⟩ / (sv ⟨i, h⟩ ^ 2 + beta ^ 2))) := by
  simp [filteringBody, coeff, setCoeff, h, bind, Except.bind]

/-- The undamped loop never fails and computes the truncated inverse pointwise. -/
theorem singularValuesInv_eq {n : Nat} (eps : K) (sv : Fin n → K) :
    singularValuesInv eps sv =
      Except.ok (fun i => if sv i < eps then 0 else sv i / (sv i * sv i)) := by
  unfold singularValuesInv
  dsimp only
  rw [forLoop_full (fun i => if sv i < eps then 0 else sv i / (sv i * sv i))
    (undampedBody eps sv) (undampedBody_eq eps sv)]
  rfl

/-- The quadratic-damping loop never fails and computes the damped inverse pointwise. -/
theorem singularValuesInvDamped_quadratic {n : Nat} (params : TwistControllerParams K)
    (lambda : K) (sv : Fin n → K) (hnf : params.numerical_filtering = false) :
    singularValuesInvDamped params lambda sv =
      Except.ok (fun i => if sv i < params.eps_truncation then 0
        else sv i / (sv i * sv i + lambda ^ 2)) := by
  unfold singularValuesInvDamped
  simp only [hnf, Bool.false_eq_true, if_false]
  rw [forLoop_full (fun i => if sv i < params.eps_truncation then 0
      else sv i / (sv i * sv i + lambda ^ 2))
    (quadraticBody params.eps_truncation lambda sv)
    (quadraticBody_eq params.eps_truncation lambda sv)]
  rfl

/-- With numerical filtering and at least one singular value the two steps never fail:
the loop fills all positions but the last, the final assignment fills the last. -/
theorem singularValuesInvDamped_filtering {n : Nat} (params : TwistControllerParams K)
    (lambda : K) (sv : Fin n → K) (hnf : params.numerical_filtering = true) (hn : 0 < n) :
    singularValuesInvDamped params lambda sv =
      Except.ok (fun i => if i.val < n - 1 then sv i / (sv i ^ 2 + params.beta ^ 2)
        else sv i / (sv i ^ 2 + params.beta ^ 2 + lambda ^ 2)) := by
  unfold singularValuesInvDamped
  simp only [hnf, if_true]
  rw [forLoop_fill (fun i => sv i / (sv i ^ 2 + params.beta ^ 2))
    (filteringBody params.beta sv) (filteringBody_eq params.beta sv) ((n : Int) - 1)
    (by omega) _ 0 (fun _ => 0) rfl]
  have hlast : max 0 ((n : Int) - 1).toNat = n - 1 := by omega
  have hlt : n - 1 < n := by omega
  simp only [bind, Except.bind, hlast, coeff, setCoeff, dif_pos hlt]
  congr 1
  funext j
  by_cases hj : j = ⟨n - 1, hlt⟩
  · subst hj
    simp
  · have hne : j.val ≠ n - 1 := fun h => hj (Fin.ext h)
    have h1 : j.val < n - 1 := by omega
    have h2 : (0 ≤ j.val ∧ (j.val : Int) < (n : Int) - 1) := ⟨Nat.zero_le _, by omega⟩
    rw [Function.update_noteq hj]
    simp only [if_pos h1, if_pos h2]

/-- With numerical filtering and no singular value, the assignment after the loop
accesses position `0` of an empty vector. -/
theorem singularValuesInvDamped_filtering_empty (params : TwistControllerParams K)
    (lambda : K) (sv : Fin 0 → K) (hnf : params.numerical_filtering = true) :
    singularValuesInvDamped params lambda sv = Except.error EigenError.indexOutOfRange := by
  unfold singularValuesInvDamped
  simp only [hnf, if_true]
  rw [forLoop, dif_neg (by norm_num)]
  rfl

end PInvBySVD

/-! ## Facts about the concrete inputs -/

namespace Example

theorem div0Safe_pos : 0 < div0Safe := by
  norm_num [div0Safe]

theorem svd23_isThinSVD : svd23.IsThinSVD jacobian23 := by
  refine ⟨by decide, ?_, ?_, ?_⟩ <;>
  · ext i j
    fin_cases i <;> fin_cases j <;>
      simp [jacobian23, svd23, Matrix.mul_apply, Matrix.diagonal_apply, Fin.sum_univ_succ,
        Matrix.vecMul, Matrix.dotProduct, Matrix.vecHead, Matrix.vecTail]

theorem gram23 : jacobian23 * jacobian23ᵀ = !![9, 0; 0, 4] := by
  ext i j
  fin_cases i <;> fin_cases j <;>
    norm_num [jacobian23, Matrix.mul_apply, Fin.sum_univ_succ, Matrix.vecHead, Matrix.vecTail]

theorem gram32 : jacobian32ᵀ * jacobian32 = !![9, 0; 0, 4] := by
  ext i j
  fin_cases i <;> fin_cases j <;>
    norm_num [jacobian32, Matrix.mul_apply, Fin.sum_univ_succ, Matrix.vecHead, Matrix.vecTail]

theorem gramSingular : jacobianSingular * jacobianSingularᵀ = !![9, 0; 0, 0] := by
  ext i j
  fin_cases i <;> fin_cases j <;>
    norm_num [jacobianSingular, Matrix.mul_apply, Fin.sum_univ_succ, Matrix.vecHead,
      Matrix.vecTail]

theorem gram23_det : (jacobian23 * jacobian23ᵀ).det ≠ 0 := by
  rw [gram23, Matrix.det_fin_two_of]
  norm_num

theorem gramSingular_det : (jacobianSingular * jacobianSingularᵀ).det = 0 := by
  rw [gramSingular, Matrix.det_fin_two_of]
  norm_num

theorem jacobian33_det : jacobian33.det ≠ 0 := by
  simp [jacobian33, Matrix.det_fin_three]

theorem damped23_det :
    (jacobian23 * jacobian23ᵀ +
      (constantDamping (1 / 2) 2 3 1 (fun _ => 0) jacobian23) ^ 2 •
        (1 : Matrix (Fin 2) (Fin 2) ℚ)).det ≠ 0 := by
  have h : jacobian23 * jacobian23ᵀ +
      (constantDamping (1 / 2) 2 3 1 (fun _ => 0) jacobian23) ^ 2 •
        (1 : Matrix (Fin 2) (Fin 2) ℚ) = !![37 / 4, 0; 0, 17 / 4] := by
    rw [gram23]
    ext i j
    fin_cases i <;> fin_cases j <;> simp [constantDamping, Matrix.one_apply] <;> norm_num
  rw [h, Matrix.det_fin_two_of]
  norm_num

theorem damped32_det :
    (jacobian32ᵀ * jacobian32 +
      (constantDamping (1 / 2) 3 2 1 (fun _ => 0) jacobian32) ^ 2 •
        (1 : Matrix (Fin 2) (Fin 2) ℚ)).det ≠ 0 := by
  have h : jacobian32ᵀ * jacobian32 +
      (constantDamping (1 / 2) 3 2 1 (fun _ => 0) jacobian32) ^ 2 •
        (1 : Matrix (Fin 2) (Fin 2) ℚ) = !![37 / 4, 0; 0, 17 / 4] := by
    rw [gram32]
    ext i j
    fin_cases i <;> fin_cases j <;> simp [constantDamping, Matrix.one_apply] <;> norm_num
  rw [h, Matrix.det_fin_two_of]
  norm_num

theorem svd23_above (i : Fin 2) : div0Safe ≤ svd23.singularValues i := by
  fin_cases i <;> norm_num [svd23, div0Safe]

end Example

/-! ## Claims on PInvBySVD -/

section SVDClaims

variable {K : Type} [LinearOrderedField K]

/-- Claim C1: for a Jacobian with a thin singular value decomposition all of whose
singular values are at least the positive truncation constant, the undamped
`PInvBySVD::calculate` returns `pinv = V * diag(sigma_i / sigma_i^2) * U^T`, and
`J * pinv * J = J`. -/
theorem svd_undamped_consistency {r c k : Nat} (DIV0_SAFE : K)
    (jacobian : Matrix (Fin r) (Fin c) K) (svd : JacobiSVD K r c k)
    (heps : 0 < DIV0_SAFE) (hsvd : svd.IsThinSVD jacobian)
    (hsv : ∀ i, DIV0_SAFE ≤ svd.singularValues i) :
    ∃ pinv : Matrix (Fin c) (Fin r) K,
      PInvBySVD.calculate DIV0_SAFE jacobian svd = Except.ok pinv ∧
      pinv = svd.matrixV *
        Matrix.diagonal (fun i => svd.singularValues i /
          (svd.singularValues i * svd.singularValues i)) * svd.matrixUᵀ ∧
      jacobian * pinv * jacobian = jacobian := by
  obtain ⟨_, hJ, hU, hV⟩ := hsvd
  have hinv : (fun i => if svd.singularValues i < DIV0_SAFE then 0
      else svd.singularValues i / (svd.singularValues i * svd.singularValues i)) =
      (fun i => svd.singularValues i / (svd.singularValues i * svd.singularValues i)) := by
    funext i
    rw [if_neg (not_lt.mpr (hsv i))]
  refine ⟨_, ?_, rfl, ?_⟩
  · unfold PInvBySVD.calculate
    rw [PInvBySVD.singularValuesInv_eq, hinv]
    rfl
  · have hD : Matrix.diagonal svd.singularValues *
        Matrix.diagonal (fun i => svd.singularValues i /
          (svd.singularValues i * svd.singularValues i)) *
        Matrix.diagonal svd.singularValues = Matrix.diagonal svd.singularValues := by
      rw [Matrix.diagonal_mul_diagonal, Matrix.diagonal_mul_diagonal]
      refine congrArg Matrix.diagonal (funext fun i => ?_)
      have hne : svd.singularValues i ≠ 0 := ne_of_gt (lt_of_lt_of_le heps (hsv i))
      field_simp
    generalize hd : Matrix.diagonal (fun i => svd.singularValues i /
          (svd.singularValues i * svd.singularValues i)) = D' at hD ⊢
    calc jacobian * (svd.matrixV * D' * svd.matrixUᵀ) * jacobian
        = svd.matrixU * (Matrix.diagonal svd.singularValues *
            (svd.matrixVᵀ * svd.matrixV) * D' * (svd.matrixUᵀ * svd.matrixU) *
            Matrix.diagonal svd.singularValues) * svd.matrixVᵀ := by
          rw [hJ]
          simp only [Matrix.mul_assoc]
      _ = svd.matrixU * (Matrix.diagonal svd.singularValues * D' *
            Matrix.diagonal svd.singularValues) * svd.matrixVᵀ := by
          rw [hU, hV, Matrix.mul_one, Matrix.mul_one]
      _ = jacobian := by rw [hD, hJ]

/-- Witness of claim C1 at the Jacobian `!![3, 0, 0; 0, 2, 0]`. -/
theorem svd_undamped_consistency_witness :
    0 < Example.div0Safe ∧ Example.svd23.IsThinSVD Example.jacobian23 ∧
    (∀ i, Example.div0Safe ≤ Example.svd23.singularValues i) ∧
    ∃ pinv : Matrix (Fin 3) (Fin 2) ℚ,
      PInvBySVD.calculate Example.div0Safe Example.jacobian23 Example.svd23 =
        Except.ok pinv ∧
      pinv = Example.svd23.matrixV *
        Matrix.diagonal (fun i => Example.svd23.singularValues i /
          (Example.svd23.singularValues i * Example.svd23.singularValues i)) *
        Example.svd23.matrixUᵀ ∧
      Example.jacobian23 * pinv * Example.jacobian23 = Example.jacobian23 :=
  ⟨Example.div0Safe_pos, Example.svd23_isThinSVD, Example.svd23_above,
    svd_undamped_consistency Example.div0Safe Example.jacobian23 Example.svd23
      Example.div0Safe_pos Example.svd23_isThinSVD Example.svd23_above⟩

/-- Claim C2: in the undamped `PInvBySVD::calculate` the inverted singular value is `0`
when `sigma_i < eps_truncation` and `sigma_i / sigma_i^2` otherwise; the division is
then by a non-zero number, and `sigma_i = 0` yields `0`. -/
theorem svd_undamped_truncation {r c k : Nat} (DIV0_SAFE : K)
    (jacobian : Matrix (Fin r) (Fin c) K) (svd : JacobiSVD K r c k)
    (heps : 0 < DIV0_SAFE) :
    ∃ inv : Fin k → K,
      PInvBySVD.singularValuesInv DIV0_SAFE svd.singularValues = Except.ok inv ∧
      PInvBySVD.calculate DIV0_SAFE jacobian svd =
        Except.ok (svd.matrixV * Matrix.diagonal inv * svd.matrixUᵀ) ∧
      ∀ i : Fin k,
        (svd.singularValues i < DIV0_SAFE → inv i = 0) ∧
        (DIV0_SAFE ≤ svd.singularValues i →
          inv i = svd.singularValues i / svd.singularValues i ^ 2 ∧
          svd.singularValues i * svd.singularValues i ≠ 0) ∧
        (svd.singularValues i = 0 → inv i = 0) := by
  refine ⟨_, PInvBySVD.singularValuesInv_eq DIV0_SAFE svd.singularValues, ?_, ?_⟩
  · unfold PInvBySVD.calculate
    rw [PInvBySVD.singularValuesInv_eq]
    rfl
  · intro i
    refine ⟨fun h => ?_, fun h => ⟨?_, ?_⟩, fun h => ?_⟩
    · simp only [if_pos h]
    · simp only [if_neg (not_lt.mpr h), sq]
    · have hpos : 0 < svd.singularValues i := lt_of_lt_of_le heps h
      exact ne_of_gt (mul_pos hpos hpos)
    · have hlt : svd.singularValues i < DIV0_SAFE := by rw [h]; exact heps
      simp only [if_pos hlt]

/-- Witness of claim C2 at singular values `3` and `0`. -/
theorem svd_undamped_truncation_witness :
    0 < Example.div0Safe ∧
    ∃ inv : Fin 2 → ℚ,
      PInvBySVD.singularValuesInv Example.div0Safe Example.svdSingular.singularValues =
        Except.ok inv ∧
      PInvBySVD.calculate Example.div0Safe Example.jacobianSingular Example.svdSingular =
        Except.ok (Example.svdSingular.matrixV * Matrix.diagonal inv *
          Example.svdSingular.matrixUᵀ) ∧
      ∀ i : Fin 2,
        (Example.svdSingular.singularValues i < Example.div0Safe → inv i = 0) ∧
        (Example.div0Safe ≤ Example.svdSingular.singularValues i →
          inv i = Example.svdSingular.singularValues i /
            Example.svdSingular.singularValues i ^ 2 ∧
          Example.svdSingular.singularValues i * Example.svdSingular.singularValues i ≠ 0) ∧
        (Example.svdSingular.singularValues i = 0 → inv i = 0) :=
  ⟨Example.div0Safe_pos,
    svd_undamped_truncation Example.div0Safe Example.jacobianSingular Example.svdSingular
      Example.div0Safe_pos⟩

/-- Claim C3: in the damped `PInvBySVD::calculate` with numerical filtering and `k >= 1`
singular values, every inverted value but the last is `sigma_i / (sigma_i^2 + beta^2)`
and is the same for two damping strategies (two values of lambda); the last one is
`sigma_last / (sigma_last^2 + beta^2 + lambda^2)`. -/
theorem svd_filtering_values {r c k : Nat} (params : TwistControllerParams K)
    (db db' : DampingBase K r c) (jacobian : Matrix (Fin r) (Fin c) K)
    (svd : JacobiSVD K r c k) (hnf : params.numerical_filtering = true) (hk : 1 ≤ k) :
    ∃ inv inv' : Fin k → K,
      PInvBySVD.calculate_damped params db jacobian svd =
        Except.ok (svd.matrixV * Matrix.diagonal inv * svd.matrixUᵀ) ∧
      PInvBySVD.calculate_damped params db' jacobian svd =
        Except.ok (svd.matrixV * Matrix.diagonal inv' * svd.matrixUᵀ) ∧
      PInvBySVD.singularValuesInvDamped params (db k svd.singularValues jacobian)
        svd.singularValues = Except.ok inv ∧
      PInvBySVD.singularValuesInvDamped params (db' k svd.singularValues jacobian)
        svd.singularValues = Except.ok inv' ∧
      (∀ i : Fin k, i.val < k - 1 →
        inv i = svd.singularValues i / (svd.singularValues i ^ 2 + params.beta ^ 2) ∧
        inv' i = inv i) ∧
      (∀ i : Fin k, i.val = k - 1 →
        inv i = svd.singularValues i /
          (svd.singularValues i ^ 2 + params.beta ^ 2 +
            (db k svd.singularValues jacobian) ^ 2)) := by
  have h := fun lambda => PInvBySVD.singularValuesInvDamped_filtering params lambda
    svd.singularValues hnf hk
  refine ⟨_, _, ?_, ?_, h _, h _, ?_, ?_⟩
  · unfold PInvBySVD.calculate_damped
    simp only [h]
    rfl
  · unfold PInvBySVD.calculate_damped
    simp only [h]
    rfl
  · intro i hi
    simp only [if_pos hi, and_self]
  · intro i hi
    have hi' : ¬ (i.val < k - 1) := by omega
    simp only [if_neg hi']

/-- Witness of claim C3 at singular values `3` and `2` with lambda `1/2` and `1/3`. -/
theorem svd_filtering_values_witness :
    Example.paramsFiltering.numerical_filtering = true ∧ 1 ≤ 2 ∧
    ∃ inv inv' : Fin 2 → ℚ,
      PInvBySVD.calculate_damped Example.paramsFiltering
          (Example.constantDamping (1 / 2) 2 3) Example.jacobian23 Example.svd23 =
        Except.ok (Example.svd23.matrixV * Matrix.diagonal inv * Example.svd23.matrixUᵀ) ∧
      PInvBySVD.calculate_damped Example.paramsFiltering
          (Example.constantDamping (1 / 3) 2 3) Example.jacobian23 Example.svd23 =
        Except.ok (Example.svd23.matrixV * Matrix.diagonal inv' * Example.svd23.matrixUᵀ) ∧
      PInvBySVD.singularValuesInvDamped Example.paramsFiltering
        (Example.constantDamping (1 / 2) 2 3 2 Example.svd23.singularValues
          Example.jacobian23) Example.svd23.singularValues = Except.ok inv ∧
      PInvBySVD.singularValuesInvDamped Example.paramsFiltering
        (Example.constantDamping (1 / 3) 2 3 2 Example.svd23.singularValues
          Example.jacobian23) Example.svd23.singularValues = Except.ok inv' ∧
      (∀ i : Fin 2, i.val < 2 - 1 →
        inv i = Example.svd23.singularValues i /
          (Example.svd23.singularValues i ^ 2 + Example.paramsFiltering.beta ^ 2) ∧
        inv' i = inv i) ∧
      (∀ i : Fin 2, i.val = 2 - 1 →
        inv i = Example.svd23.singularValues i /
          (Example.svd23.singularValues i ^ 2 + Example.paramsFiltering.beta ^ 2 +
            (Example.constantDamping (1 / 2) 2 3 2 Example.svd23.singularValues
              Example.jacobian23) ^ 2)) :=
  ⟨rfl, by decide,
    svd_filtering_values Example.paramsFiltering (Example.constantDamping (1 / 2) 2 3)
      (Example.constantDamping (1 / 3) 2 3) Example.jacobian23 Example.svd23 rfl
      (by decide)⟩

/-- Claim C4, evaluated at the Jacobian of a chain without joints (six rows, no column,
no singular value): with numerical filtering the damped `PInvBySVD::calculate` accesses
element `0` of the empty vector of singular values and fails, whereas the undamped form
and the quadratic-damping mode return the zero matrix with no row and six columns. -/
theorem svd_empty_jacobian_filtering_fails :
    PInvBySVD.calculate_damped Example.paramsFiltering (Example.constantDamping (1 / 2) 6 0)
        Example.jacobianEmpty Example.svdEmpty =
      Except.error EigenError.indexOutOfRange ∧
    PInvBySVD.calculate Example.div0Safe Example.jacobianEmpty Example.svdEmpty =
      Except.ok 0 ∧
    PInvBySVD.calculate_damped Example.paramsQuadratic (Example.constantDamping (1 / 2) 6 0)
        Example.jacobianEmpty Example.svdEmpty =
      Except.ok 0 := by
  refine ⟨?_, ?_, ?_⟩
  · unfold PInvBySVD.calculate_damped
    simp only [PInvBySVD.singularValuesInvDamped_filtering_empty Example.paramsFiltering _ _ rfl]
    rfl
  · unfold PInvBySVD.calculate
    rw [PInvBySVD.singularValuesInv_eq]
    exact congrArg Except.ok (Matrix.ext fun i _ => i.elim0)
  · unfold PInvBySVD.calculate_damped
    simp only [PInvBySVD.singularValuesInvDamped_quadratic Example.paramsQuadratic _ _ rfl]
    exact congrArg Except.ok (Matrix.ext fun i _ => i.elim0)

/-- Claim C10: in the damped `PInvBySVD::calculate` without numerical filtering the
inverted singular value is `sigma_i / (sigma_i^2 + lambda^2)` when
`sigma_i >= eps_truncation` and `0` otherwise, where `lambda` is the one value returned
by the damping strategy for the singular values and the Jacobian; the test compares
`sigma_i` with `eps_truncation`. -/
theorem svd_quadratic_values {r c k : Nat} (params : TwistControllerParams K)
    (db : DampingBase K r c) (jacobian : Matrix (Fin r) (Fin c) K)
    (svd : JacobiSVD K r c k) (hnf : params.numerical_filtering = false) :
    ∃ inv : Fin k → K,
      PInvBySVD.calculate_damped params db jacobian svd =
        Except.ok (svd.matrixV * Matrix.diagonal inv * svd.matrixUᵀ) ∧
      PInvBySVD.singularValuesInvDamped params (db k svd.singularValues jacobian)
        svd.singularValues = Except.ok inv ∧
      ∀ i : Fin k,
        (params.eps_truncation ≤ svd.singularValues i →
          inv i = svd.singularValues i /
            (svd.singularValues i ^ 2 + (db k svd.singularValues jacobian) ^ 2)) ∧
        (svd.singularValues i < params.eps_truncation → inv i = 0) := by
  have h := fun lambda => PInvBySVD.singularValuesInvDamped_quadratic params lambda
    svd.singularValues hnf
  refine ⟨_, ?_, h _, ?_⟩
  · unfold PInvBySVD.calculate_damped
    simp only [h]
    rfl
  · intro i
    refine ⟨fun hi => ?_, fun hi => ?_⟩
    · simp only [if_neg (not_lt.mpr hi), sq]
    · simp only [if_pos hi]

/-- Witness of claim C10 at singular values `3` and `0` with lambda `1/2`. -/
theorem svd_quadratic_values_witness :
    Example.paramsQuadratic.numerical_filtering = false ∧
    ∃ inv : Fin 2 → ℚ,
      PInvBySVD.calculate_damped Example.paramsQuadratic
          (Example.constantDamping (1 / 2) 2 3) Example.jacobianSingular
          Example.svdSingular =
        Except.ok (Example.svdSingular.matrixV * Matrix.diagonal inv *
          Example.svdSingular.matrixUᵀ) ∧
      PInvBySVD.singularValuesInvDamped Example.paramsQuadratic
        (Example.constantDamping (1 / 2) 2 3 2 Example.svdSingular.singularValues
          Example.jacobianSingular) Example.svdSingular.singularValues = Except.ok inv ∧
      ∀ i : Fin 2,
        (Example.paramsQuadratic.eps_truncation ≤ Example.svdSingular.singularValues i →
          inv i = Example.svdSingular.singularValues i /
            (Example.svdSingular.singularValues i ^ 2 +
              (Example.constantDamping (1 / 2) 2 3 2 Example.svdSingular.singularValues
                Example.jacobianSingular) ^ 2)) ∧
        (Example.svdSingular.singularValues i < Example.paramsQuadratic.eps_truncation →
          inv i = 0) :=
  ⟨rfl,
    svd_quadratic_values Example.paramsQuadratic (Example.constantDamping (1 / 2) 2 3)
      Example.jacobianSingular Example.svdSingular rfl⟩

end SVDClaims

/-! ## The inversion routine -/

section InverseLemmas

variable {K : Type} [Field K]

/-- A routine that meets the contract agrees with the matrix inverse on every
invertible matrix. -/
theorem EigenInverse.IsInverse.eq_inv {inverse : EigenInverse K} (h : inverse.IsInverse)
    {n : Nat} (A : Matrix (Fin n) (Fin n) K) (hA : A.det ≠ 0) : inverse n A = A⁻¹ :=
  (Matrix.inv_eq_right_inv (h n A hA)).symm

/-- The adjugate routine meets the contract of `inverse()`. -/
theorem adjugateInverse_isInverse : (adjugateInverse : EigenInverse K).IsInverse := by
  intro n A hA
  unfold adjugateInverse
  rw [Matrix.mul_smul, Matrix.mul_adjugate, smul_smul, inv_mul_cancel₀ hA, one_smul]

end InverseLemmas

section Regularization

variable {K : Type} [LinearOrderedField K]

/-- With a non-zero damping factor the matrix `A * A^T + lambda^2 * I` handed to
`inverse()` is positive definite, hence invertible. -/
theorem regularized_gram_det_ne_zero {m n : Nat} (A : Matrix (Fin m) (Fin n) K) (lambda : K)
    (hl : lambda ≠ 0) : (A * Aᵀ + lambda ^ 2 • (1 : Matrix (Fin m) (Fin m) K)).det ≠ 0 := by
  intro hdet
  obtain ⟨v, hv, hzero⟩ := Matrix.exists_mulVec_eq_zero_iff.mpr hdet
  have hq : v ⬝ᵥ ((A * Aᵀ + lambda ^ 2 • (1 : Matrix (Fin m) (Fin m) K)) *ᵥ v) = 0 := by
    rw [hzero, Matrix.dotProduct_zero]
  have hsplit : v ⬝ᵥ ((A * Aᵀ + lambda ^ 2 • (1 : Matrix (Fin m) (Fin m) K)) *ᵥ v) =
      (Aᵀ *ᵥ v) ⬝ᵥ (Aᵀ *ᵥ v) + lambda ^ 2 * (v ⬝ᵥ v) := by
    rw [Matrix.add_mulVec, Matrix.dotProduct_add, Matrix.smul_mulVec_assoc, Matrix.one_mulVec,
      Matrix.dotProduct_smul, smul_eq_mul, ← Matrix.mulVec_mulVec, Matrix.dotProduct_mulVec,
      ← Matrix.mulVec_transpose]
  rw [hsplit] at hq
  have h1 : 0 ≤ (Aᵀ *ᵥ v) ⬝ᵥ (Aᵀ *ᵥ v) := Finset.sum_nonneg fun i _ => mul_self_nonneg _
  have h2 : 0 ≤ v ⬝ᵥ v := Finset.sum_nonneg fun i _ => mul_self_nonneg _
  have h3 : 0 < lambda ^ 2 := by positivity
  have h4 : v ⬝ᵥ v = 0 := by nlinarith
  exact hv (Matrix.dotProduct_self_eq_zero.mp h4)

/-- The same for the matrix `A^T * A + lambda^2 * I` of the left pseudo-inverse. -/
theorem regularized_gram_det_ne_zero_left {m n : Nat} (A : Matrix (Fin m) (Fin n) K)
    (lambda : K) (hl : lambda ≠ 0) :
    (Aᵀ * A + lambda ^ 2 • (1 : Matrix (Fin n) (Fin n) K)).det ≠ 0 := by
  have h := regularized_gram_det_ne_zero Aᵀ lambda hl
  rwa [Matrix.transpose_transpose] at h

end Regularization

/-! ## Claims on PInvDirect -/

section DirectClaims

variable {K : Type} [LinearOrderedField K]

theorem PInvDirect.calculate_right {r c : Nat} (inverse : EigenInverse K)
    (jacobian : Matrix (Fin r) (Fin c) K) (h : r ≤ c) :
    PInvDirect.calculate inverse jacobian =
      Except.ok (jacobianᵀ * inverse r (jacobian * jacobianᵀ)) := by
  unfold PInvDirect.calculate
  simp only [ge_iff_le, if_pos h]
  rfl

theorem PInvDirect.calculate_left {r c : Nat} (inverse : EigenInverse K)
    (jacobian : Matrix (Fin r) (Fin c) K) (h : c < r) :
    PInvDirect.calculate inverse jacobian =
      Except.ok (inverse c (jacobianᵀ * jacobian) * jacobianᵀ) := by
  unfold PInvDirect.calculate
  simp only [ge_iff_le, if_neg (not_le.mpr h)]
  rfl

theorem PInvDirect.calculate_damped_right {r c : Nat} (inverse : EigenInverse K)
    (params : TwistControllerParams K) (db : DampingBase K r c)
    (jacobian : Matrix (Fin r) (Fin c) K) (h : r ≤ c) :
    (PInvDirect.calculate_damped inverse params db jacobian).result =
      Except.ok (jacobianᵀ * inverse r (jacobian * jacobianᵀ +
        (db 1 (fun _ => 0) jacobian * db 1 (fun _ => 0) jacobian) •
          (1 : Matrix (Fin r) (Fin r) K))) := by
  unfold PInvDirect.calculate_damped
  simp only [ge_iff_le, if_pos h]
  rfl

theorem PInvDirect.calculate_damped_left {r c : Nat} (inverse : EigenInverse K)
    (params : TwistControllerParams K) (db : DampingBase K r c)
    (jacobian : Matrix (Fin r) (Fin c) K) (h : c < r) :
    (PInvDirect.calculate_damped inverse params db jacobian).result =
      Except.ok (inverse c (jacobianᵀ * jacobian +
        (db 1 (fun _ => 0) jacobian * db 1 (fun _ => 0) jacobian) •
          (1 : Matrix (Fin c) (Fin c) K)) * jacobianᵀ) := by
  unfold PInvDirect.calculate_damped
  simp only [ge_iff_le, if_neg (not_le.mpr h)]
  rfl

/-- Claim C5: for an invertible square Jacobian the undamped `PInvDirect::calculate`, and
the damped one with a damping strategy that returns `0`, return the matrix inverse. -/
theorem direct_square_inverse {n : Nat} (inverse : EigenInverse K)
    (hinv : inverse.IsInverse) (params : TwistControllerParams K)
    (db : DampingBase K n n) (jacobian : Matrix (Fin n) (Fin n) K)
    (hdet : jacobian.det ≠ 0) (hdb : ∀ m v A, db m v A = 0) :
    PInvDirect.calculate inverse jacobian = Except.ok jacobian⁻¹ ∧
    (PInvDirect.calculate_damped inverse params db jacobian).result =
      Except.ok jacobian⁻¹ := by
  have hgram : (jacobian * jacobianᵀ).det ≠ 0 := by
    rw [Matrix.det_mul, Matrix.det_transpose]
    exact mul_ne_zero hdet hdet
  have hunit : IsUnit jacobianᵀ.det := by
    rw [Matrix.det_transpose]
    exact isUnit_iff_ne_zero.mpr hdet
  have hkey : jacobianᵀ * inverse n (jacobian * jacobianᵀ) = jacobian⁻¹ := by
    rw [hinv.eq_inv _ hgram, Matrix.mul_inv_rev, ← Matrix.mul_assoc,
      Matrix.mul_nonsing_inv _ hunit, Matrix.one_mul]
  refine ⟨?_, ?_⟩
  · rw [PInvDirect.calculate_right inverse jacobian (le_refl n), hkey]
  · rw [PInvDirect.calculate_damped_right inverse params db jacobian (le_refl n), hdb,
      mul_zero, zero_smul, add_zero, hkey]

/-- Witness of claim C5 at an invertible Jacobian with three rows. -/
theorem direct_square_inverse_witness :
    (adjugateInverse : EigenInverse ℚ).IsInverse ∧ Example.jacobian33.det ≠ 0 ∧
    (∀ m v A, Example.constantDamping 0 3 3 m v A = 0) ∧
    PInvDirect.calculate adjugateInverse Example.jacobian33 =
      Except.ok Example.jacobian33⁻¹ ∧
    (PInvDirect.calculate_damped adjugateInverse Example.paramsQuadratic
        (Example.constantDamping 0 3 3) Example.jacobian33).result =
      Except.ok Example.jacobian33⁻¹ :=
  ⟨adjugateInverse_isInverse, Example.jacobian33_det, fun _ _ _ => rfl,
    direct_square_inverse adjugateInverse adjugateInverse_isInverse Example.paramsQuadratic
      (Example.constantDamping 0 3 3) Example.jacobian33 Example.jacobian33_det
      (fun _ _ _ => rfl)⟩

/-- Claim C6: for a Jacobian with fewer rows than columns and invertible `J * J^T`, the
matrix returned by `PInvDirect::calculate` with lambda `0` (the undamped form, and the
damped form with a damping strategy that returns `0`) is a right inverse:
`J * pinv = I`. -/
theorem direct_right_inverse {r c : Nat} (inverse : EigenInverse K)
    (hinv : inverse.IsInverse) (params : TwistControllerParams K)
    (db : DampingBase K r c) (jacobian : Matrix (Fin r) (Fin c) K)
    (hrc : r < c) (hdet : (jacobian * jacobianᵀ).det ≠ 0) (hdb : ∀ m v A, db m v A = 0) :
    ∃ pinv : Matrix (Fin c) (Fin r) K,
      PInvDirect.calculate inverse jacobian = Except.ok pinv ∧
      (PInvDirect.calculate_damped inverse params db jacobian).result = Except.ok pinv ∧
      jacobian * pinv = 1 := by
  refine ⟨jacobianᵀ * inverse r (jacobian * jacobianᵀ), ?_, ?_, ?_⟩
  · exact PInvDirect.calculate_right inverse jacobian (le_of_lt hrc)
  · rw [PInvDirect.calculate_damped_right inverse params db jacobian (le_of_lt hrc), hdb,
      mul_zero, zero_smul, add_zero]
  · rw [← Matrix.mul_assoc]
    exact hinv r _ hdet

/-- Witness of claim C6 at the Jacobian `!![3, 0, 0; 0, 2, 0]`. -/
theorem direct_right_inverse_witness :
    (adjugateInverse : EigenInverse ℚ).IsInverse ∧ 2 < 3 ∧
    (Example.jacobian23 * Example.jacobian23ᵀ).det ≠ 0 ∧
    (∀ m v A, Example.constantDamping 0 2 3 m v A = 0) ∧
    ∃ pinv : Matrix (Fin 3) (Fin 2) ℚ,
      PInvDirect.calculate adjugateInverse Example.jacobian23 = Except.ok pinv ∧
      (PInvDirect.calculate_damped adjugateInverse Example.paramsQuadratic
        (Example.constantDamping 0 2 3) Example.jacobian23).result = Except.ok pinv ∧
      Example.jacobian23 * pinv = 1 :=
  ⟨adjugateInverse_isInverse, by decide, Example.gram23_det, fun _ _ _ => rfl,
    direct_right_inverse adjugateInverse adjugateInverse_isInverse Example.paramsQuadratic
      (Example.constantDamping 0 2 3) Example.jacobian23 (by decide) Example.gram23_det
      (fun _ _ _ => rfl)⟩

/-- Claim C7: the damped `PInvDirect::calculate` returns the right pseudo-inverse
`J^T * (J * J^T + lambda^2 * I)^-1` when `rows <= cols` and the left pseudo-inverse
`(J^T * J + lambda^2 * I)^-1 * J^T` when `rows > cols`, where `lambda` is the value the
damping strategy returns for the Jacobian (and the placeholder vector), whenever the
matrix to be inverted is invertible. -/
theorem direct_damped_formula {r c : Nat} (inverse : EigenInverse K)
    (hinv : inverse.IsInverse) (params : TwistControllerParams K)
    (db : DampingBase K r c) (jacobian : Matrix (Fin r) (Fin c) K) :
    (r ≤ c →
      (jacobian * jacobianᵀ +
        (db 1 (fun _ => 0) jacobian) ^ 2 • (1 : Matrix (Fin r) (Fin r) K)).det ≠ 0 →
      (PInvDirect.calculate_damped inverse params db jacobian).result =
        Except.ok (jacobianᵀ * (jacobian * jacobianᵀ +
          (db 1 (fun _ => 0) jacobian) ^ 2 • (1 : Matrix (Fin r) (Fin r) K))⁻¹)) ∧
    (c < r →
      (jacobianᵀ * jacobian +
        (db 1 (fun _ => 0) jacobian) ^ 2 • (1 : Matrix (Fin c) (Fin c) K)).det ≠ 0 →
      (PInvDirect.calculate_damped inverse params db jacobian).result =
        Except.ok ((jacobianᵀ * jacobian +
          (db 1 (fun _ => 0) jacobian) ^ 2 • (1 : Matrix (Fin c) (Fin c) K))⁻¹ *
            jacobianᵀ)) := by
  refine ⟨fun h hdet => ?_, fun h hdet => ?_⟩
  · rw [PInvDirect.calculate_damped_right inverse params db jacobian h, ← sq,
      hinv.eq_inv _ hdet]
  · rw [PInvDirect.calculate_damped_left inverse params db jacobian h, ← sq,
      hinv.eq_inv _ hdet]

/-- Witness of claim C7 at a Jacobian with two rows and three columns and at one with
three rows and two columns, with lambda `1/2`. -/
theorem direct_damped_formula_witness :
    (adjugateInverse : EigenInverse ℚ).IsInverse ∧
    (2 ≤ 3 ∧
      (Example.jacobian23 * Example.jacobian23ᵀ +
        (Example.constantDamping (1 / 2) 2 3 1 (fun _ => 0) Example.jacobian23) ^ 2 •
          (1 : Matrix (Fin 2) (Fin 2) ℚ)).det ≠ 0 ∧
      (PInvDirect.calculate_damped adjugateInverse Example.paramsQuadratic
          (Example.constantDamping (1 / 2) 2 3) Example.jacobian23).result =
        Except.ok (Example.jacobian23ᵀ * (Example.jacobian23 * Example.jacobian23ᵀ +
          (Example.constantDamping (1 / 2) 2 3 1 (fun _ => 0) Example.jacobian23) ^ 2 •
            (1 : Matrix (Fin 2) (Fin 2) ℚ))⁻¹)) ∧
    (2 < 3 ∧
      (Example.jacobian32ᵀ * Example.jacobian32 +
        (Example.constantDamping (1 / 2) 3 2 1 (fun _ => 0) Example.jacobian32) ^ 2 •
          (1 : Matrix (Fin 2) (Fin 2) ℚ)).det ≠ 0 ∧
      (PInvDirect.calculate_damped adjugateInverse Example.paramsQuadratic
          (Example.constantDamping (1 / 2) 3 2) Example.jacobian32).result =
        Except.ok ((Example.jacobian32ᵀ * Example.jacobian32 +
          (Example.constantDamping (1 / 2) 3 2 1 (fun _ => 0) Example.jacobian32) ^ 2 •
            (1 : Matrix (Fin 2) (Fin 2) ℚ))⁻¹ * Example.jacobian32ᵀ)) :=
  ⟨adjugateInverse_isInverse,
    ⟨by decide, Example.damped23_det,
      (direct_damped_formula adjugateInverse adjugateInverse_isInverse
        Example.paramsQuadratic (Example.constantDamping (1 / 2) 2 3)
        Example.jacobian23).1 (by decide) Example.damped23_det⟩,
    ⟨by decide, Example.damped32_det,
      (direct_damped_formula adjugateInverse adjugateInverse_isInverse
        Example.paramsQuadratic (Example.constantDamping (1 / 2) 3 2)
        Example.jacobian32).2 (by decide) Example.damped32_det⟩⟩

/-- Claim C8, refuted at the rank-deficient Jacobian `!![3, 0, 0; 0, 0, 0]`: the Gram
matrix `J * J^T` is singular, yet for every inversion routine the undamped
`PInvDirect::calculate` returns a matrix and no error; with the adjugate routine the
undamped form and the damped form with lambda `0` return the zero matrix. -/
theorem direct_singular_gram_returns :
    (Example.jacobianSingular * Example.jacobianSingularᵀ).det = 0 ∧
    (∀ (inverse : EigenInverse ℚ) (e : EigenError),
      PInvDirect.calculate inverse Example.jacobianSingular ≠ Except.error e) ∧
    PInvDirect.calculate adjugateInverse Example.jacobianSingular = Except.ok 0 ∧
    (PInvDirect.calculate_damped adjugateInverse Example.paramsQuadratic
      (Example.constantDamping 0 2 3) Example.jacobianSingular).result = Except.ok 0 := by
  have hz : adjugateInverse 2 (Example.jacobianSingular * Example.jacobianSingularᵀ) = 0 := by
    unfold adjugateInverse
    rw [Example.gramSingular_det]
    simp
  refine ⟨Example.gramSingular_det, ?_, ?_, ?_⟩
  · intro inverse e
    rw [PInvDirect.calculate_right inverse Example.jacobianSingular (by decide)]
    exact fun h => Except.noConfusion h
  · rw [PInvDirect.calculate_right adjugateInverse Example.jacobianSingular (by decide), hz,
      Matrix.mul_zero]
  · rw [PInvDirect.calculate_damped_right adjugateInverse Example.paramsQuadratic
      (Example.constantDamping 0 2 3) Example.jacobianSingular (by decide)]
    have hl : Example.constantDamping 0 2 3 1 (fun _ => 0) Example.jacobianSingular = 0 := rfl
    rw [hl, mul_zero, zero_smul, add_zero, hz, Matrix.mul_zero]

/-- Claim C8 as amended: for a Jacobian whose Gram matrix is singular, the undamped
`PInvDirect::calculate` and the damped one with lambda `0` raise no error; both return
`J^T * X` (rows <= cols) or `X * J^T` (rows > cols), where `X` is whatever `inverse()`
yields for the singular Gram matrix, and this result is not a right (respectively left)
inverse of the Jacobian. -/
theorem direct_singular_gram_unchecked {r c : Nat} (inverse : EigenInverse K)
    (params : TwistControllerParams K) (db : DampingBase K r c)
    (jacobian : Matrix (Fin r) (Fin c) K) (hdb : ∀ m v A, db m v A = 0)
    (hsing : (r ≤ c → (jacobian * jacobianᵀ).det = 0) ∧
      (c < r → (jacobianᵀ * jacobian).det = 0)) :
    ∃ pinv : Matrix (Fin c) (Fin r) K,
      PInvDirect.calculate inverse jacobian = Except.ok pinv ∧
      (PInvDirect.calculate_damped inverse params db jacobian).result = Except.ok pinv ∧
      pinv = (if r ≤ c then jacobianᵀ * inverse r (jacobian * jacobianᵀ)
        else inverse c (jacobianᵀ * jacobian) * jacobianᵀ) ∧
      (r ≤ c → jacobian * pinv ≠ 1) ∧ (c < r → pinv * jacobian ≠ 1) := by
  by_cases h : r ≤ c
  · refine ⟨jacobianᵀ * inverse r (jacobian * jacobianᵀ), ?_, ?_, ?_, ?_, ?_⟩
    · exact PInvDirect.calculate_right inverse jacobian h
    · rw [PInvDirect.calculate_damped_right inverse params db jacobian h, hdb, mul_zero,
        zero_smul, add_zero]
    · rw [if_pos h]
    · intro _ hone
      rw [← Matrix.mul_assoc] at hone
      have hd := congrArg Matrix.det hone
      rw [Matrix.det_mul, hsing.1 h, zero_mul, Matrix.det_one] at hd
      exact zero_ne_one hd
    · intro h'
      omega
  · have h' : c < r := not_le.mp h
    refine ⟨inverse c (jacobianᵀ * jacobian) * jacobianᵀ, ?_, ?_, ?_, ?_, ?_⟩
    · exact PInvDirect.calculate_left inverse jacobian h'
    · rw [PInvDirect.calculate_damped_left inverse params db jacobian h', hdb, mul_zero,
        zero_smul, add_zero]
    · rw [if_neg h]
    · intro h''
      omega
    · intro _ hone
      rw [Matrix.mul_assoc] at hone
      have hd := congrArg Matrix.det hone
      rw [Matrix.det_mul, hsing.2 h', mul_zero, Matrix.det_one] at hd
      exact zero_ne_one hd

/-- Witness of the amended claim C8 at the Jacobian `!![3, 0, 0; 0, 0, 0]`. -/
theorem direct_singular_gram_unchecked_witness :
    (∀ m v A, Example.constantDamping 0 2 3 m v A = 0) ∧
    ((2 ≤ 3 → (Example.jacobianSingular * Example.jacobianSingularᵀ).det = 0) ∧
      (3 < 2 → (Example.jacobianSingularᵀ * Example.jacobianSingular).det = 0)) ∧
    ∃ pinv : Matrix (Fin 3) (Fin 2) ℚ,
      PInvDirect.calculate adjugateInverse Example.jacobianSingular = Except.ok pinv ∧
      (PInvDirect.calculate_damped adjugateInverse Example.paramsQuadratic
        (Example.constantDamping 0 2 3) Example.jacobianSingular).result = Except.ok pinv ∧
      pinv = (if 2 ≤ 3 then Example.jacobianSingularᵀ *
          adjugateInverse 2 (Example.jacobianSingular * Example.jacobianSingularᵀ)
        else adjugateInverse 3 (Example.jacobianSingularᵀ * Example.jacobianSingular) *
          Example.jacobianSingularᵀ) ∧
      (2 ≤ 3 → Example.jacobianSingular * pinv ≠ 1) ∧
      (3 < 2 → pinv * Example.jacobianSingular ≠ 1) :=
  ⟨fun _ _ _ => rfl,
    ⟨fun _ => Example.gramSingular_det, fun h => absurd h (by decide)⟩,
    direct_singular_gram_unchecked adjugateInverse Example.paramsQuadratic
      (Example.constantDamping 0 2 3) Example.jacobianSingular (fun _ _ _ => rfl)
      ⟨fun _ => Example.gramSingular_det, fun h => absurd h (by decide)⟩⟩

/-- Claim C9, refuted at the Jacobian `!![3, 0, 0; 0, 2, 0]` with lambda `1/2`: with
`damping_method = LEAST_SINGULAR_VALUE` the damped `PInvDirect::calculate` is not rejected;
it returns the right pseudo-inverse, the same matrix as with the method `CONSTANT`. -/
theorem direct_least_singular_value_returns :
    Example.paramsLeastSingular.damping_method = DampingMethodTypes.LEAST_SINGULAR_VALUE ∧
    Example.paramsQuadratic.damping_method = DampingMethodTypes.CONSTANT ∧
    (PInvDirect.calculate_damped adjugateInverse Example.paramsLeastSingular
        (Example.constantDamping (1 / 2) 2 3) Example.jacobian23).result =
      Except.ok (Example.jacobian23ᵀ * (Example.jacobian23 * Example.jacobian23ᵀ +
        (1 / 2 : ℚ) ^ 2 • (1 : Matrix (Fin 2) (Fin 2) ℚ))⁻¹) ∧
    (PInvDirect.calculate_damped adjugateInverse Example.paramsLeastSingular
        (Example.constantDamping (1 / 2) 2 3) Example.jacobian23).result =
      (PInvDirect.calculate_damped adjugateInverse Example.paramsQuadratic
        (Example.constantDamping (1 / 2) 2 3) Example.jacobian23).result := by
  refine ⟨rfl, rfl, ?_, ?_⟩
  · rw [PInvDirect.calculate_damped_right adjugateInverse Example.paramsLeastSingular
      (Example.constantDamping (1 / 2) 2 3) Example.jacobian23 (by decide), ← sq,
      adjugateInverse_isInverse.eq_inv _ Example.damped23_det]
    rfl
  · rw [PInvDirect.calculate_damped_right adjugateInverse Example.paramsLeastSingular
        (Example.constantDamping (1 / 2) 2 3) Example.jacobian23 (by decide),
      PInvDirect.calculate_damped_right adjugateInverse Example.paramsQuadratic
        (Example.constantDamping (1 / 2) 2 3) Example.jacobian23 (by decide)]

/-- Claim C9 as amended: with `damping_method = LEAST_SINGULAR_VALUE` the damped
`PInvDirect::calculate` reports the unsupported configuration by one `ROS_ERROR` message
and then continues: it raises no error and returns the same matrix as for any other
parameters, the left or right pseudo-inverse formed with the lambda of the damping
strategy. -/
theorem direct_least_singular_value_logged {r c : Nat} (inverse : EigenInverse K)
    (params : TwistControllerParams K) (db : DampingBase K r c)
    (jacobian : Matrix (Fin r) (Fin c) K)
    (hm : params.damping_method = DampingMethodTypes.LEAST_SINGULAR_VALUE) :
    (PInvDirect.calculate_damped inverse params db jacobian).rosErrors =
      [PInvDirect.unsupportedMessage] ∧
    (∀ params' : TwistControllerParams K,
      (PInvDirect.calculate_damped inverse params db jacobian).result =
        (PInvDirect.calculate_damped inverse params' db jacobian).result) ∧
    (PInvDirect.calculate_damped inverse params db jacobian).result =
      Except.ok (if r ≤ c then
          jacobianᵀ * inverse r (jacobian * jacobianᵀ +
            (db 1 (fun _ => 0) jacobian * db 1 (fun _ => 0) jacobian) •
              (1 : Matrix (Fin r) (Fin r) K))
        else
          inverse c (jacobianᵀ * jacobian +
            (db 1 (fun _ => 0) jacobian * db 1 (fun _ => 0) jacobian) •
              (1 : Matrix (Fin c) (Fin c) K)) * jacobianᵀ) := by
  refine ⟨?_, ?_, ?_⟩
  · unfold PInvDirect.calculate_damped
    by_cases h : r ≤ c
    · simp only [ge_iff_le, if_pos h, hm, if_true]
    · simp only [ge_iff_le, if_neg h, hm, if_true]
  · intro params'
    by_cases h : r ≤ c
    · rw [PInvDirect.calculate_damped_right inverse params db jacobian h,
        PInvDirect.calculate_damped_right inverse params' db jacobian h]
    · rw [PInvDirect.calculate_damped_left inverse params db jacobian (not_le.mp h),
        PInvDirect.calculate_damped_left inverse params' db jacobian (not_le.mp h)]
  · by_cases h : r ≤ c
    · rw [PInvDirect.calculate_damped_right inverse params db jacobian h, if_pos h]
    · rw [PInvDirect.calculate_damped_left inverse params db jacobian (not_le.mp h),
        if_neg h]

/-- Witness of the amended claim C9 at the Jacobian `!![3, 0, 0; 0, 2, 0]`. -/
theorem direct_least_singular_value_logged_witness :
    Example.paramsLeastSingular.damping_method = DampingMethodTypes.LEAST_SINGULAR_VALUE ∧
    (PInvDirect.calculate_damped adjugateInverse Example.paramsLeastSingular
        (Example.constantDamping (1 / 2) 2 3) Example.jacobian23).rosErrors =
      [PInvDirect.unsupportedMessage] ∧
    (∀ params' : TwistControllerParams ℚ,
      (PInvDirect.calculate_damped adjugateInverse Example.paramsLeastSingular
          (Example.constantDamping (1 / 2) 2 3) Example.jacobian23).result =
        (PInvDirect.calculate_damped adjugateInverse params'
          (Example.constantDamping (1 / 2) 2 3) Example.jacobian23).result) ∧
    (PInvDirect.calculate_damped adjugateInverse Example.paramsLeastSingular
        (Example.constantDamping (1 / 2) 2 3) Example.jacobian23).result =
      Except.ok (if 2 ≤ 3 then
          Example.jacobian23ᵀ * adjugateInverse 2 (Example.jacobian23 * Example.jacobian23ᵀ +
            (Example.constantDamping (1 / 2) 2 3 1 (fun _ => 0) Example.jacobian23 *
              Example.constantDamping (1 / 2) 2 3 1 (fun _ => 0) Example.jacobian23) •
              (1 : Matrix (Fin 2) (Fin 2) ℚ))
        else
          adjugateInverse 3 (Example.jacobian23ᵀ * Example.jacobian23 +
            (Example.constantDamping (1 / 2) 2 3 1 (fun _ => 0) Example.jacobian23 *
              Example.constantDamping (1 / 2) 2 3 1 (fun _ => 0) Example.jacobian23) •
              (1 : Matrix (Fin 3) (Fin 3) ℚ)) * Example.jacobian23ᵀ) :=
  ⟨rfl,
    direct_least_singular_value_logged adjugateInverse Example.paramsLeastSingular
      (Example.constantDamping (1 / 2) 2 3) Example.jacobian23 rfl⟩

end DirectClaims

/-! ## PInvDirect: the damped and the undamped form -/

namespace Example

theorem sumDamping_placeholder (r c : Nat) (A : Matrix (Fin r) (Fin c) ℚ) :
    constantDamping (1 / 2) r c 1 (fun _ => 0) A = sumDamping r c 1 (fun _ => 0) A := by
  simp [constantDamping, sumDamping]

end Example

section DirectRefinement

variable {K : Type} [LinearOrderedField K]

/-- Claim C11: for every Jacobian the damped `PInvDirect::calculate` with a damping
strategy that returns `0` returns the same matrix as the undamped
`PInvDirect::calculate`, the right form `J^T * inverse(J * J^T)` when `rows <= cols` and
the left form `inverse(J^T * J) * J^T` otherwise. -/
theorem direct_damped_zero_eq_undamped {r c : Nat} (inverse : EigenInverse K)
    (params : TwistControllerParams K) (db : DampingBase K r c)
    (jacobian : Matrix (Fin r) (Fin c) K) (hdb : ∀ m v A, db m v A = 0) :
    (PInvDirect.calculate_damped inverse params db jacobian).result =
      PInvDirect.calculate inverse jacobian ∧
    PInvDirect.calculate inverse jacobian =
      Except.ok (if r ≤ c then jacobianᵀ * inverse r (jacobian * jacobianᵀ)
        else inverse c (jacobianᵀ * jacobian) * jacobianᵀ) := by
  by_cases h : r ≤ c
  · rw [PInvDirect.calculate_damped_right inverse params db jacobian h,
      PInvDirect.calculate_right inverse jacobian h, hdb, mul_zero, zero_smul, add_zero,
      if_pos h]
    exact ⟨rfl, rfl⟩
  · rw [PInvDirect.calculate_damped_left inverse params db jacobian (not_le.mp h),
      PInvDirect.calculate_left inverse jacobian (not_le.mp h), hdb, mul_zero, zero_smul,
      add_zero, if_neg h]
    exact ⟨rfl, rfl⟩

/-- Witness of claim C11 at the Jacobian `!![3, 0; 0, 2; 0, 0]` (left form). -/
theorem direct_damped_zero_eq_undamped_witness :
    (∀ m v A, Example.constantDamping 0 3 2 m v A = 0) ∧
    (PInvDirect.calculate_damped adjugateInverse Example.paramsQuadratic
        (Example.constantDamping 0 3 2) Example.jacobian32).result =
      PInvDirect.calculate adjugateInverse Example.jacobian32 ∧
    PInvDirect.calculate adjugateInverse Example.jacobian32 =
      Except.ok (if 3 ≤ 2 then
          Example.jacobian32ᵀ * adjugateInverse 3 (Example.jacobian32 * Example.jacobian32ᵀ)
        else adjugateInverse 2 (Example.jacobian32ᵀ * Example.jacobian32) *
          Example.jacobian32ᵀ) :=
  ⟨fun _ _ _ => rfl,
    direct_damped_zero_eq_undamped adjugateInverse Example.paramsQuadratic
      (Example.constantDamping 0 3 2) Example.jacobian32 (fun _ _ _ => rfl)⟩

/-- Claim C12: the damped `PInvDirect::calculate` uses the damping strategy only through
its value at the vector of size `1` with entry `0` and the unmodified Jacobian: that
value is the lambda of the result, and two strategies that agree there give the same
outcome for every Jacobian and every params. -/
theorem direct_damping_placeholder {r c : Nat} (inverse : EigenInverse K)
    (params : TwistControllerParams K) (db db' : DampingBase K r c)
    (jacobian : Matrix (Fin r) (Fin c) K)
    (hagree : db 1 (fun _ => 0) jacobian = db' 1 (fun _ => 0) jacobian) :
    (PInvDirect.calculate_damped inverse params db jacobian).result =
      (PInvDirect.calculate_damped inverse params db' jacobian).result ∧
    (PInvDirect.calculate_damped inverse params db jacobian).rosErrors =
      (PInvDirect.calculate_damped inverse params db' jacobian).rosErrors ∧
    (PInvDirect.calculate_damped inverse params db jacobian).result =
      Except.ok (if r ≤ c then
          jacobianᵀ * inverse r (jacobian * jacobianᵀ +
            (db 1 (fun _ => 0) jacobian * db 1 (fun _ => 0) jacobian) •
              (1 : Matrix (Fin r) (Fin r) K))
        else
          inverse c (jacobianᵀ * jacobian +
            (db 1 (fun _ => 0) jacobian * db 1 (fun _ => 0) jacobian) •
              (1 : Matrix (Fin c) (Fin c) K)) * jacobianᵀ) := by
  by_cases h : r ≤ c
  · refine ⟨?_, ?_, ?_⟩
    · rw [PInvDirect.calculate_damped_right inverse params db jacobian h,
        PInvDirect.calculate_damped_right inverse params db' jacobian h, hagree]
    · unfold PInvDirect.calculate_damped
      simp only [ge_iff_le, if_pos h]
    · rw [PInvDirect.calculate_damped_right inverse params db jacobian h, if_pos h]
  · refine ⟨?_, ?_, ?_⟩
    · rw [PInvDirect.calculate_damped_left inverse params db jacobian (not_le.mp h),
        PInvDirect.calculate_damped_left inverse params db' jacobian (not_le.mp h), hagree]
    · unfold PInvDirect.calculate_damped
      simp only [ge_iff_le, if_neg h]
    · rw [PInvDirect.calculate_damped_left inverse params db jacobian (not_le.mp h),
        if_neg h]

/-- Witness of claim C12: a constant strategy and one that adds up the singular values
it is given agree on the placeholder vector. -/
theorem direct_damping_placeholder_witness :
    Example.constantDamping (1 / 2) 2 3 1 (fun _ => 0) Example.jacobian23 =
      Example.sumDamping 2 3 1 (fun _ => 0) Example.jacobian23 ∧
    (PInvDirect.calculate_damped adjugateInverse Example.paramsQuadratic
        (Example.constantDamping (1 / 2) 2 3) Example.jacobian23).result =
      (PInvDirect.calculate_damped adjugateInverse Example.paramsQuadratic
        (Example.sumDamping 2 3) Example.jacobian23).result ∧
    (PInvDirect.calculate_damped adjugateInverse Example.paramsQuadratic
        (Example.constantDamping (1 / 2) 2 3) Example.jacobian23).rosErrors =
      (PInvDirect.calculate_damped adjugateInverse Example.paramsQuadratic
        (Example.sumDamping 2 3) Example.jacobian23).rosErrors ∧
    (PInvDirect.calculate_damped adjugateInverse Example.paramsQuadratic
        (Example.constantDamping (1 / 2) 2 3) Example.jacobian23).result =
      Except.ok (if 2 ≤ 3 then
          Example.jacobian23ᵀ * adjugateInverse 2 (Example.jacobian23 * Example.jacobian23ᵀ +
            (Example.constantDamping (1 / 2) 2 3 1 (fun _ => 0) Example.jacobian23 *
              Example.constantDamping (1 / 2) 2 3 1 (fun _ => 0) Example.jacobian23) •
              (1 : Matrix (Fin 2) (Fin 2) ℚ))
        else
          adjugateInverse 3 (Example.jacobian23ᵀ * Example.jacobian23 +
            (Example.constantDamping (1 / 2) 2 3 1 (fun _ => 0) Example.jacobian23 *
              Example.constantDamping (1 / 2) 2 3 1 (fun _ => 0) Example.jacobian23) •
              (1 : Matrix (Fin 3) (Fin 3) ℚ)) * Example.jacobian23ᵀ) :=
  ⟨Example.sumDamping_placeholder 2 3 Example.jacobian23,
    direct_damping_placeholder adjugateInverse Example.paramsQuadratic
      (Example.constantDamping (1 / 2) 2 3) (Example.sumDamping 2 3) Example.jacobian23
      (Example.sumDamping_placeholder 2 3 Example.jacobian23)⟩

end DirectRefinement

/-! ## PInvBySVD: bounded gain and the damped form without damping -/

namespace Example

end Example

section SVDRefinement

variable {K : Type} [LinearOrderedField K]

/-- Claim C17: with numerical filtering disabled, a damping strategy that returns `0` and
`params.eps_truncation` equal to `DIV0_SAFE`, the damped `PInvBySVD::calculate` computes
the same inverted singular values and the same pseudo-inverse as the undamped one. -/
theorem svd_damped_zero_eq_undamped {r c k : Nat} (DIV0_SAFE : K)
    (params : TwistControllerParams K) (db : DampingBase K r c)
    (jacobian : Matrix (Fin r) (Fin c) K) (svd : JacobiSVD K r c k)
    (hnf : params.numerical_filtering = false) (heps : params.eps_truncation = DIV0_SAFE)
    (hdb : ∀ m v A, db m v A = 0) :
    PInvBySVD.singularValuesInvDamped params (db k svd.singularValues jacobian)
        svd.singularValues =
      PInvBySVD.singularValuesInv DIV0_SAFE svd.singularValues ∧
    PInvBySVD.calculate_damped params db jacobian svd =
      PInvBySVD.calculate DIV0_SAFE jacobian svd := by
  have hvals : PInvBySVD.singularValuesInvDamped params (db k svd.singularValues jacobian)
        svd.singularValues =
      PInvBySVD.singularValuesInv DIV0_SAFE svd.singularValues := by
    rw [PInvBySVD.singularValuesInvDamped_quadratic params _ _ hnf,
      PInvBySVD.singularValuesInv_eq, hdb, heps]
    refine congrArg Except.ok (funext fun i => ?_)
    rw [zero_pow two_ne_zero, add_zero]
  refine ⟨hvals, ?_⟩
  unfold PInvBySVD.calculate_damped PInvBySVD.calculate
  simp only [hvals]

/-- Witness of claim C17 at singular values `3` and `0`. -/
theorem svd_damped_zero_eq_undamped_witness :
    Example.paramsQuadratic.numerical_filtering = false ∧
    Example.paramsQuadratic.eps_truncation = Example.div0Safe ∧
    (∀ m v A, Example.constantDamping 0 2 3 m v A = 0) ∧
    PInvBySVD.singularValuesInvDamped Example.paramsQuadratic
        (Example.constantDamping 0 2 3 2 Example.svdSingular.singularValues
          Example.jacobianSingular) Example.svdSingular.singularValues =
      PInvBySVD.singularValuesInv Example.div0Safe Example.svdSingular.singularValues ∧
    PInvBySVD.calculate_damped Example.paramsQuadratic (Example.constantDamping 0 2 3)
        Example.jacobianSingular Example.svdSingular =
      PInvBySVD.calculate Example.div0Safe Example.jacobianSingular Example.svdSingular :=
  ⟨rfl, rfl, fun _ _ _ => rfl,
    svd_damped_zero_eq_undamped Example.div0Safe Example.paramsQuadratic
      (Example.constantDamping 0 2 3) Example.jacobianSingular Example.svdSingular rfl rfl
      (fun _ _ _ => rfl)⟩

end SVDRefinement

/-! ## PInvBySVD with quadratic damping against the damped PInvDirect -/

namespace Example

theorem svd23_above_eps (i : Fin 2) :
    paramsQuadratic.eps_truncation ≤ svd23.singularValues i := by
  fin_cases i <;> norm_num [svd23, paramsQuadratic]

end Example

section SVDAgainstDirect

variable {K : Type} [LinearOrderedField K]

/-- The damped inverse `e_i = s_i / (s_i^2 + l^2)` solves `e * s^2 + l^2 * e = s`. -/
theorem damped_diagonal_identity {k : Nat} (s : Fin k → K) (l : K) (hl : l ≠ 0) :
    Matrix.diagonal (fun i => s i / (s i * s i + l ^ 2)) *
        (Matrix.diagonal s * Matrix.diagonal s) +
      l ^ 2 • Matrix.diagonal (fun i => s i / (s i * s i + l ^ 2)) = Matrix.diagonal s := by
  rw [Matrix.diagonal_mul_diagonal, Matrix.diagonal_mul_diagonal, ← Matrix.diagonal_smul,
    Matrix.diagonal_add]
  refine congrArg Matrix.diagonal (funext fun i => ?_)
  have hl2 : 0 < l ^ 2 := by positivity
  have hd : s i * s i + l ^ 2 ≠ 0 :=
    ne_of_gt (add_pos_of_nonneg_of_pos (mul_self_nonneg _) hl2)
  simp only [Pi.smul_apply, smul_eq_mul]
  field_simp
  ring

/-- For `J = U * diag(s) * V^T` with orthonormal columns in `U` and `V`, the matrix
`X = V * diag(e) * U^T` satisfies `X * (J * J^T + l^2 * I) = J^T`. -/
theorem svd_form_mul_regularized {r c k : Nat} (U : Matrix (Fin r) (Fin k) K)
    (V : Matrix (Fin c) (Fin k) K) (s : Fin k → K) (l : K) (hl : l ≠ 0)
    (hU : Uᵀ * U = 1) (hV : Vᵀ * V = 1) :
    V * Matrix.diagonal (fun i => s i / (s i * s i + l ^ 2)) * Uᵀ *
      ((U * Matrix.diagonal s * Vᵀ) * (U * Matrix.diagonal s * Vᵀ)ᵀ +
        l ^ 2 • (1 : Matrix (Fin r) (Fin r) K)) = (U * Matrix.diagonal s * Vᵀ)ᵀ := by
  have hdiag := damped_diagonal_identity s l hl
  generalize Matrix.diagonal (fun i => s i / (s i * s i + l ^ 2)) = E at hdiag ⊢
  have hJt : (U * Matrix.diagonal s * Vᵀ)ᵀ = V * Matrix.diagonal s * Uᵀ := by
    rw [Matrix.transpose_mul, Matrix.transpose_mul, Matrix.transpose_transpose,
      Matrix.diagonal_transpose, Matrix.mul_assoc]
  rw [hJt]
  calc V * E * Uᵀ * (U * Matrix.diagonal s * Vᵀ * (V * Matrix.diagonal s * Uᵀ) +
          l ^ 2 • (1 : Matrix (Fin r) (Fin r) K))
      = V * (E * (Uᵀ * U) * Matrix.diagonal s * (Vᵀ * V) * Matrix.diagonal s) * Uᵀ +
          l ^ 2 • (V * E * Uᵀ) := by
        rw [Matrix.mul_add, Matrix.mul_smul, Matrix.mul_one]
        simp only [Matrix.mul_assoc]
    _ = V * (E * (Matrix.diagonal s * Matrix.diagonal s) + l ^ 2 • E) * Uᵀ := by
        rw [hU, hV, Matrix.mul_one, Matrix.mul_one, Matrix.mul_add, Matrix.add_mul,
          Matrix.mul_smul, Matrix.smul_mul, Matrix.mul_assoc E]
    _ = V * Matrix.diagonal s * Uᵀ := by rw [hdiag]

/-- The mirrored identity `(J^T * J + l^2 * I) * X = J^T`. -/
theorem regularized_mul_svd_form {r c k : Nat} (U : Matrix (Fin r) (Fin k) K)
    (V : Matrix (Fin c) (Fin k) K) (s : Fin k → K) (l : K) (hl : l ≠ 0)
    (hU : Uᵀ * U = 1) (hV : Vᵀ * V = 1) :
    ((U * Matrix.diagonal s * Vᵀ)ᵀ * (U * Matrix.diagonal s * Vᵀ) +
        l ^ 2 • (1 : Matrix (Fin c) (Fin c) K)) *
      (V * Matrix.diagonal (fun i => s i / (s i * s i + l ^ 2)) * Uᵀ) =
      (U * Matrix.diagonal s * Vᵀ)ᵀ := by
  have h := congrArg Matrix.transpose (svd_form_mul_regularized V U s l hl hV hU)
  simp only [Matrix.transpose_mul, Matrix.transpose_add, Matrix.transpose_smul,
    Matrix.transpose_one, Matrix.transpose_transpose, Matrix.diagonal_transpose] at h
  simp only [Matrix.transpose_mul, Matrix.transpose_transpose, Matrix.diagonal_transpose]
  simpa only [Matrix.mul_assoc] using h

/-- Claim C15: for a Jacobian with a thin singular value decomposition, a damping factor
`lambda > 0` and all singular values at least `eps_truncation`, the damped
`PInvBySVD::calculate` without numerical filtering and the damped
`PInvDirect::calculate` return the same matrix
`V * diag(sigma_i / (sigma_i^2 + lambda^2)) * U^T`, which is
`J^T * (J * J^T + lambda^2 * I)^-1` when `rows <= cols` and
`(J^T * J + lambda^2 * I)^-1 * J^T` when `rows > cols`. -/
theorem svd_quadratic_eq_direct {r c k : Nat} (inverse : EigenInverse K)
    (hinv : inverse.IsInverse) (params : TwistControllerParams K) (db : DampingBase K r c)
    (jacobian : Matrix (Fin r) (Fin c) K) (svd : JacobiSVD K r c k) (lambda : K)
    (hnf : params.numerical_filtering = false) (hsvd : svd.IsThinSVD jacobian)
    (hl : 0 < lambda) (hdb : ∀ m v A, db m v A = lambda)
    (hsv : ∀ i, params.eps_truncation ≤ svd.singularValues i) :
    PInvBySVD.calculate_damped params db jacobian svd =
      Except.ok (svd.matrixV * Matrix.diagonal (fun i => svd.singularValues i /
        (svd.singularValues i ^ 2 + lambda ^ 2)) * svd.matrixUᵀ) ∧
    (PInvDirect.calculate_damped inverse params db jacobian).result =
      PInvBySVD.calculate_damped params db jacobian svd ∧
    (r ≤ c →
      svd.matrixV * Matrix.diagonal (fun i => svd.singularValues i /
          (svd.singularValues i ^ 2 + lambda ^ 2)) * svd.matrixUᵀ =
        jacobianᵀ * (jacobian * jacobianᵀ +
          lambda ^ 2 • (1 : Matrix (Fin r) (Fin r) K))⁻¹) ∧
    (c < r →
      svd.matrixV * Matrix.diagonal (fun i => svd.singularValues i /
          (svd.singularValues i ^ 2 + lambda ^ 2)) * svd.matrixUᵀ =
        (jacobianᵀ * jacobian +
          lambda ^ 2 • (1 : Matrix (Fin c) (Fin c) K))⁻¹ * jacobianᵀ) := by
  obtain ⟨_, hJ, hU, hV⟩ := hsvd
  have hl0 : lambda ≠ 0 := ne_of_gt hl
  have hE : (fun i => svd.singularValues i / (svd.singularValues i ^ 2 + lambda ^ 2)) =
      (fun i => svd.singularValues i /
        (svd.singularValues i * svd.singularValues i + lambda ^ 2)) := by
    funext i
    rw [sq (svd.singularValues i)]
  have hdetR := regularized_gram_det_ne_zero jacobian lambda hl0
  have hdetL := regularized_gram_det_ne_zero_left jacobian lambda hl0
  have hright : svd.matrixV * Matrix.diagonal (fun i => svd.singularValues i /
        (svd.singularValues i ^ 2 + lambda ^ 2)) * svd.matrixUᵀ =
      jacobianᵀ * (jacobian * jacobianᵀ +
        lambda ^ 2 • (1 : Matrix (Fin r) (Fin r) K))⁻¹ := by
    have h := svd_form_mul_regularized svd.matrixU svd.matrixV svd.singularValues lambda
      hl0 hU hV
    rw [← hJ, ← hE] at h
    have hc := Matrix.mul_nonsing_inv_cancel_right (jacobian * jacobianᵀ +
      lambda ^ 2 • (1 : Matrix (Fin r) (Fin r) K)) (svd.matrixV *
        Matrix.diagonal (fun i => svd.singularValues i /
          (svd.singularValues i ^ 2 + lambda ^ 2)) * svd.matrixUᵀ)
      (isUnit_iff_ne_zero.mpr hdetR)
    rw [h] at hc
    exact hc.symm
  have hleft : svd.matrixV * Matrix.diagonal (fun i => svd.singularValues i /
        (svd.singularValues i ^ 2 + lambda ^ 2)) * svd.matrixUᵀ =
      (jacobianᵀ * jacobian +
        lambda ^ 2 • (1 : Matrix (Fin c) (Fin c) K))⁻¹ * jacobianᵀ := by
    have h := regularized_mul_svd_form svd.matrixU svd.matrixV svd.singularValues lambda
      hl0 hU hV
    rw [← hJ, ← hE] at h
    have hc := Matrix.nonsing_inv_mul_cancel_left (jacobianᵀ * jacobian +
      lambda ^ 2 • (1 : Matrix (Fin c) (Fin c) K)) (svd.matrixV *
        Matrix.diagonal (fun i => svd.singularValues i /
          (svd.singularValues i ^ 2 + lambda ^ 2)) * svd.matrixUᵀ)
      (isUnit_iff_ne_zero.mpr hdetL)
    rw [h] at hc
    exact hc.symm
  have hsvdres : PInvBySVD.calculate_damped params db jacobian svd =
      Except.ok (svd.matrixV * Matrix.diagonal (fun i => svd.singularValues i /
        (svd.singularValues i ^ 2 + lambda ^ 2)) * svd.matrixUᵀ) := by
    unfold PInvBySVD.calculate_damped
    simp only [PInvBySVD.singularValuesInvDamped_quadratic params _ _ hnf, hdb]
    have hinvs : (fun i => if svd.singularValues i < params.eps_truncation then 0
        else svd.singularValues i /
          (svd.singularValues i * svd.singularValues i + lambda ^ 2)) =
        (fun i => svd.singularValues i / (svd.singularValues i ^ 2 + lambda ^ 2)) := by
      funext i
      rw [if_neg (not_lt.mpr (hsv i)), sq (svd.singularValues i)]
    rw [hinvs]
    rfl
  refine ⟨hsvdres, ?_, fun _ => hright, fun _ => hleft⟩
  rw [hsvdres]
  by_cases h : r ≤ c
  · rw [PInvDirect.calculate_damped_right inverse params db jacobian h, hdb, ← sq,
      hinv.eq_inv _ hdetR, hright]
  · rw [PInvDirect.calculate_damped_left inverse params db jacobian (not_le.mp h), hdb,
      ← sq, hinv.eq_inv _ hdetL, hleft]

/-- Witness of claim C15 at the Jacobian `!![3, 0, 0; 0, 2, 0]` with lambda `1/2`. -/
theorem svd_quadratic_eq_direct_witness :
    (adjugateInverse : EigenInverse ℚ).IsInverse ∧
    Example.paramsQuadratic.numerical_filtering = false ∧
    Example.svd23.IsThinSVD Example.jacobian23 ∧ (0 : ℚ) < 1 / 2 ∧
    (∀ m v A, Example.constantDamping (1 / 2) 2 3 m v A = 1 / 2) ∧
    (∀ i, Example.paramsQuadratic.eps_truncation ≤ Example.svd23.singularValues i) ∧
    PInvBySVD.calculate_damped Example.paramsQuadratic (Example.constantDamping (1 / 2) 2 3)
        Example.jacobian23 Example.svd23 =
      Except.ok (Example.svd23.matrixV *
        Matrix.diagonal (fun i => Example.svd23.singularValues i /
          (Example.svd23.singularValues i ^ 2 + (1 / 2 : ℚ) ^ 2)) *
        Example.svd23.matrixUᵀ) ∧
    (PInvDirect.calculate_damped adjugateInverse Example.paramsQuadratic
        (Example.constantDamping (1 / 2) 2 3) Example.jacobian23).result =
      PInvBySVD.calculate_damped Example.paramsQuadratic
        (Example.constantDamping (1 / 2) 2 3) Example.jacobian23 Example.svd23 ∧
    (2 ≤ 3 →
      Example.svd23.matrixV *
          Matrix.diagonal (fun i => Example.svd23.singularValues i /
            (Example.svd23.singularValues i ^ 2 + (1 / 2 : ℚ) ^ 2)) *
          Example.svd23.matrixUᵀ =
        Example.jacobian23ᵀ * (Example.jacobian23 * Example.jacobian23ᵀ +
          (1 / 2 : ℚ) ^ 2 • (1 : Matrix (Fin 2) (Fin 2) ℚ))⁻¹) ∧
    (3 < 2 →
      Example.svd23.matrixV *
          Matrix.diagonal (fun i => Example.svd23.singularValues i /
            (Example.svd23.singularValues i ^ 2 + (1 / 2 : ℚ) ^ 2)) *
          Example.svd23.matrixUᵀ =
        (Example.jacobian23ᵀ * Example.jacobian23 +
          (1 / 2 : ℚ) ^ 2 • (1 : Matrix (Fin 3) (Fin 3) ℚ))⁻¹ * Example.jacobian23ᵀ) :=
  ⟨adjugateInverse_isInverse, rfl, Example.svd23_isThinSVD, by norm_num,
    fun _ _ _ => rfl, Example.svd23_above_eps,
    svd_quadratic_eq_direct adjugateInverse adjugateInverse_isInverse
      Example.paramsQuadratic (Example.constantDamping (1 / 2) 2 3) Example.jacobian23
      Example.svd23 (1 / 2) rfl Example.svd23_isThinSVD (by norm_num) (fun _ _ _ => rfl)
      Example.svd23_above_eps⟩

end SVDAgainstDirect

/-! ## KinematicExtensionBaseActive: construction -/

section ExtensionClaims

variable {K : Type} [LinearOrderedField K] {JointStates : Type}

/-- The constructed object is the one `initExtension()` leaves behind. -/
theorem baseActive_constructed_result
    (initExtension : InitExtension K JointStates) (params : TwistControllerParams K)
    (uninit : KinematicExtensionBaseActive K JointStates) :
    (KinematicExtensionBaseActive.KinematicExtensionBaseActive initExtension params
      uninit).result = (initExtension uninit.assignMembers).2 := by
  unfold KinematicExtensionBaseActive.KinematicExtensionBaseActive
  by_cases h : (initExtension uninit.assignMembers).1 = true
  · simp only [h, Bool.not_true, Bool.false_eq_true, if_false]
  · simp only [Bool.not_eq_true] at h
    simp only [h, Bool.not_false, if_true]

/-- Claim C13: every constructed `KinematicExtensionBaseActive` has the linear and the
rotational minimum velocity `0.005` and the linear and the rotational maximum velocity
`0.5`, for every params, every state left by the base-class constructors and every
`initExtension()` that does not assign the thresholds, whether it succeeds or not. -/
theorem baseActive_thresholds (initExtension : InitExtension K JointStates)
    (params : TwistControllerParams K)
    (uninit : KinematicExtensionBaseActive K JointStates)
    (hkeep : initExtension.KeepsThresholds) :
    (KinematicExtensionBaseActive.KinematicExtensionBaseActive initExtension params
      uninit).result.min_vel_lin_base_ = 5 / 1000 ∧
    (KinematicExtensionBaseActive.KinematicExtensionBaseActive initExtension params
      uninit).result.min_vel_rot_base_ = 5 / 1000 ∧
    (KinematicExtensionBaseActive.KinematicExtensionBaseActive initExtension params
      uninit).result.max_vel_lin_base_ = 1 / 2 ∧
    (KinematicExtensionBaseActive.KinematicExtensionBaseActive initExtension params
      uninit).result.max_vel_rot_base_ = 1 / 2 := by
  rw [baseActive_constructed_result]
  obtain ⟨h1, h2, h3, h4⟩ := hkeep uninit.assignMembers
  rw [h1, h2, h3, h4]
  exact ⟨rfl, rfl, rfl, rfl⟩

/-- Witness of claim C13 with an `initExtension()` that reports a failure. -/
theorem baseActive_thresholds_witness :
    Example.initFails.KeepsThresholds ∧
    (KinematicExtensionBaseActive.KinematicExtensionBaseActive Example.initFails
      Example.paramsQuadratic Example.uninitBase).result.min_vel_lin_base_ = 5 / 1000 ∧
    (KinematicExtensionBaseActive.KinematicExtensionBaseActive Example.initFails
      Example.paramsQuadratic Example.uninitBase).result.min_vel_rot_base_ = 5 / 1000 ∧
    (KinematicExtensionBaseActive.KinematicExtensionBaseActive Example.initFails
      Example.paramsQuadratic Example.uninitBase).result.max_vel_lin_base_ = 1 / 2 ∧
    (KinematicExtensionBaseActive.KinematicExtensionBaseActive Example.initFails
      Example.paramsQuadratic Example.uninitBase).result.max_vel_rot_base_ = 1 / 2 :=
  ⟨fun _ => ⟨rfl, rfl, rfl, rfl⟩,
    baseActive_thresholds Example.initFails Example.paramsQuadratic Example.uninitBase
      (fun _ => ⟨rfl, rfl, rfl, rfl⟩)⟩

end ExtensionClaims

end CobTwistController

/-! ## Numerical filtering in double arithmetic -/

namespace CobTwistController

section DoubleArithmetic

end DoubleArithmetic

end CobTwistController
